import Mathlib

/-
Verification of the restish configuration and OpenAPI compilation core.

This file gives a shallow embedding, in Lean 4, of the algorithmic core of
the restish repository:

  - cli/apiconfig.go : layered API configuration (deep merge, profile
    validation, local config discovery, request-URI lookup, duplicate-base
    startup check);
  - openapi/openapi.go : base-path resolution against declared servers,
    parameter merging, operation naming, and response-schema grouping.

Go maps are modelled as association lists keyed by String; a Go map read
m[k] is first-occurrence lookup (Go maps never hold duplicate keys, so
theorems about merged maps carry explicit no-duplicate-key hypotheses
where the characterisation depends on it).  A Go nil pointer of type *T is
modelled as (none : Option T).  Go strings are Lean Strings.  Functions
that panic or return error are modelled with Except or Option results.
-/

set_option autoImplicit false

namespace Restish

universe u

/-- Association-list lookup, first occurrence wins: the model of reading a
Go map with m[k]. -/
def assocLookup {α : Type u} : List (String × α) → String → Option α
  | [], _ => none
  | (k0, v) :: t, k => if k = k0 then some v else assocLookup t k

/-- Association-list update in place, appending when the key is absent: the
model of a Go map write m[k] = v. -/
def assocSet {α : Type u} : List (String × α) → String → α → List (String × α)
  | [], k, v => [(k, v)]
  | (k0, v0) :: t, k, v => if k0 = k then (k, v) :: t else (k0, v0) :: assocSet t k v

/-- Whether some entry of the association list has the given key. -/
def anyKey {α : Type u} : List (String × α) → String → Bool
  | [], _ => false
  | (k0, _) :: t, k => if k0 = k then true else anyKey t k

/-- No two entries of the association list share a key.  Every map produced
by Go satisfies this. -/
def noDupKeys {α : Type u} : List (String × α) → Bool
  | [] => true
  | (k0, _) :: t => !anyKey t k0 && noDupKeys t

/-- A string-to-string Go map. -/
abbrev StrMap := List (String × String)

/-- Model of the Go loop `for k, v := range source { dest[k] = v }` used to
merge one string map into another. -/
def mergeStrMap (dest source : StrMap) : StrMap :=
  source.foldl (fun m p => assocSet m p.1 p.2) dest

/-- First-some choice on options, used to state per-key precedence. -/
def orElseO {α : Type u} (a b : Option α) : Option α :=
  match a with
  | some v => some v
  | none => b

/-- APIAuth (cli/apiconfig.go:23): auth type name and parameter map. -/
structure APIAuth where
  name : String
  params : StrMap
deriving DecidableEq, Repr

/-- PKCS11Config (cli/apiconfig.go:39). -/
structure PKCS11Config where
  path : String
  label : String
deriving DecidableEq, Repr

/-- TLSConfig (cli/apiconfig.go:29). -/
structure TLSConfig where
  insecureSkipVerify : Bool
  cert : String
  key : String
  caCert : String
  pkcs11 : Option PKCS11Config
deriving DecidableEq, Repr

/-- APIProfile (cli/apiconfig.go:45). -/
structure APIProfile where
  base : String
  headers : StrMap
  query : StrMap
  auth : Option APIAuth
deriving DecidableEq, Repr

/-- APIConfig (cli/apiconfig.go:54).  The Profiles field is a Go
map[string]*APIProfile, so values are Option APIProfile: a key can be
present with a nil profile. -/
structure APIConfig where
  base : String
  operationBase : String
  specFiles : List String
  profiles : List (String × Option APIProfile)
  tls : Option TLSConfig
deriving DecidableEq, Repr

/-- The zero value prepared by the Go expression new APIProfile composite
literal, written there as an empty struct. -/
def emptyProfile : APIProfile := ⟨"", [], [], none⟩

/-- The zero value of TLSConfig. -/
def emptyTLS : TLSConfig := ⟨false, "", "", "", none⟩

/-- Reading a Go map[string]*APIProfile with m[k]: a missing key and a key
holding a nil pointer both read as nil. -/
def profLookup (ps : List (String × Option APIProfile)) (k : String) : Option APIProfile :=
  (assocLookup ps k).getD none

/-- Writing a profile pointer into the profile map. -/
def profSet (ps : List (String × Option APIProfile)) (k : String) (p : APIProfile) :
    List (String × Option APIProfile) :=
  assocSet ps k (some p)

/-- Lines 192-194 of cli/apiconfig.go: a non-empty source profile base
overwrites the dest profile base. -/
def profBasePart (dest source : APIProfile) : APIProfile :=
  if source.base ≠ "" then { dest with base := source.base } else dest

/-- Lines 196-204: merge the header maps key-by-key when the source map is
non-empty. -/
def profHeadersPart (dest source : APIProfile) : APIProfile :=
  if source.headers.isEmpty then dest
  else { dest with headers := mergeStrMap dest.headers source.headers }

/-- Lines 206-214: merge the query maps key-by-key when the source map is
non-empty. -/
def profQueryPart (dest source : APIProfile) : APIProfile :=
  if source.query.isEmpty then dest
  else { dest with query := mergeStrMap dest.query source.query }

/-- Lines 216-230: when source auth is set, overwrite the auth name and
merge the auth param maps key-by-key into the (possibly freshly created)
dest auth. -/
def profAuthPart (dest source : APIProfile) : APIProfile :=
  match source.auth with
  | none => dest
  | some sa =>
    let da := dest.auth.getD ⟨"", []⟩
    { dest with auth := some { name := sa.name, params := mergeStrMap da.params sa.params } }

/-- deepMergeProfile (cli/apiconfig.go:191): merge source profile into dest
profile, in the order of the Go function body. -/
def deepMergeProfile (dest source : APIProfile) : APIProfile :=
  profAuthPart (profQueryPart (profHeadersPart (profBasePart dest source) source) source) source

/-- One step of the profile-map merge loop of deepMergeAPIConfig
(cli/apiconfig.go:262): nil source profiles are skipped; otherwise the dest
profile (created empty when absent or nil) receives a deep merge. -/
def mergeProfileStep (ps : List (String × Option APIProfile)) (kv : String × Option APIProfile) :
    List (String × Option APIProfile) :=
  match kv.2 with
  | none => ps
  | some sp => profSet ps kv.1 (deepMergeProfile ((profLookup ps kv.1).getD emptyProfile) sp)

/-- Lines 236-238 of cli/apiconfig.go: a non-empty source base overwrites. -/
def mergeBasePart (dest source : APIConfig) : APIConfig :=
  if source.base ≠ "" then { dest with base := source.base } else dest

/-- Lines 240-242: a non-empty source operation base overwrites. -/
def mergeOpBasePart (dest source : APIConfig) : APIConfig :=
  if source.operationBase ≠ "" then { dest with operationBase := source.operationBase } else dest

/-- The body of the spec-file append loop, lines 250-254: skip values found
in the existingSpecs snapshot, append the rest. -/
def specAppendStep (existing : List String) (acc : List String) (sp : String) : List String :=
  if existing.contains sp then acc else acc ++ [sp]

/-- Lines 244-255: merge spec files, appending source entries absent from
the snapshot of dest taken before the loop. -/
def mergeSpecFilesPart (dest source : APIConfig) : APIConfig :=
  if source.specFiles.isEmpty then dest
  else
    { dest with specFiles :=
        source.specFiles.foldl (specAppendStep dest.specFiles) dest.specFiles }

/-- Lines 257-272: deep merge the profile maps. -/
def mergeProfilesPart (dest source : APIConfig) : APIConfig :=
  if source.profiles.isEmpty then dest
  else { dest with profiles := source.profiles.foldl mergeProfileStep dest.profiles }

/-- Lines 274-302: merge the TLS configuration. -/
def mergeTLSPart (dest source : APIConfig) : APIConfig :=
  match source.tls with
  | none => dest
  | some st =>
    let dt := dest.tls.getD emptyTLS
    let dt := if st.insecureSkipVerify then { dt with insecureSkipVerify := true } else dt
    let dt := if st.cert ≠ "" then { dt with cert := st.cert } else dt
    let dt := if st.key ≠ "" then { dt with key := st.key } else dt
    let dt := if st.caCert ≠ "" then { dt with caCert := st.caCert } else dt
    let dt :=
      match st.pkcs11 with
      | none => dt
      | some sp =>
        let dp := dt.pkcs11.getD ⟨"", ""⟩
        let dp := if sp.path ≠ "" then { dp with path := sp.path } else dp
        let dp := if sp.label ≠ "" then { dp with label := sp.label } else dp
        { dt with pkcs11 := some dp }
    { dest with tls := some dt }

/-- deepMergeAPIConfig (cli/apiconfig.go:235): merge source config into dest
config, field by field, in the order of the Go function body. -/
def deepMergeAPIConfig (dest source : APIConfig) : APIConfig :=
  mergeTLSPart
    (mergeProfilesPart
      (mergeSpecFilesPart
        (mergeOpBasePart (mergeBasePart dest source) source) source) source) source

/-- Reads the effective insecure-skip-verify flag of a config; a nil TLS
pointer reads as false (the Go zero value). -/
def tlsInsecure (c : APIConfig) : Bool :=
  match c.tls with
  | some t => t.insecureSkipVerify
  | none => false

/-- Reads the TLS client certificate of a config; nil TLS reads as empty. -/
def tlsCert (c : APIConfig) : String :=
  match c.tls with
  | some t => t.cert
  | none => ""

/-- Reads the TLS client key of a config; nil TLS reads as empty. -/
def tlsKey (c : APIConfig) : String :=
  match c.tls with
  | some t => t.key
  | none => ""

/-- Reads the TLS CA certificate of a config; nil TLS reads as empty. -/
def tlsCACert (c : APIConfig) : String :=
  match c.tls with
  | some t => t.caCert
  | none => ""

/-- Reads the PKCS11 module path of a config; nil pointers read as empty. -/
def pkcs11Path (c : APIConfig) : String :=
  match c.tls with
  | some t =>
    match t.pkcs11 with
    | some p => p.path
    | none => ""
  | none => ""

/-- Reads the PKCS11 label of a config; nil pointers read as empty. -/
def pkcs11Label (c : APIConfig) : String :=
  match c.tls with
  | some t =>
    match t.pkcs11 with
    | some p => p.label
    | none => ""
  | none => ""

/-- Functional form of the TLS merge of lines 274-302: each non-empty
source scalar overwrites, insecure is sticky, and the PKCS11 record merges
recursively. -/
def mergedTLS (dt st : TLSConfig) : TLSConfig :=
  { insecureSkipVerify := if st.insecureSkipVerify then true else dt.insecureSkipVerify
    cert := if st.cert ≠ "" then st.cert else dt.cert
    key := if st.key ≠ "" then st.key else dt.key
    caCert := if st.caCert ≠ "" then st.caCert else dt.caCert
    pkcs11 :=
      match st.pkcs11 with
      | none => dt.pkcs11
      | some sp =>
        let dp := dt.pkcs11.getD ⟨"", ""⟩
        some { path := if sp.path ≠ "" then sp.path else dp.path
               label := if sp.label ≠ "" then sp.label else dp.label } }

/-- Reads an auth parameter of a profile; a nil auth pointer reads as an
empty map. -/
def authParams (p : APIProfile) (k : String) : Option String :=
  match p.auth with
  | some a => assocLookup a.params k
  | none => none

/-- The inner maps of a profile have no duplicate keys (true of every
profile Go decodes, since Go maps cannot repeat keys). -/
def profMapsWF (p : APIProfile) : Bool :=
  noDupKeys p.headers && noDupKeys p.query &&
    (match p.auth with
     | some a => noDupKeys a.params
     | none => true)

/-- The profile map of a config and every inner profile map are free of
duplicate keys. -/
def configProfilesWF (c : APIConfig) : Bool :=
  noDupKeys c.profiles &&
    c.profiles.all (fun kv =>
      match kv.2 with
      | some p => profMapsWF p
      | none => true)

/-- Reads one header value of one named profile of a config. -/
def profHeaders (c : APIConfig) (pname k : String) : Option String :=
  match profLookup c.profiles pname with
  | some p => assocLookup p.headers k
  | none => none

/-- Reads one query value of one named profile of a config. -/
def profQuery (c : APIConfig) (pname k : String) : Option String :=
  match profLookup c.profiles pname with
  | some p => assocLookup p.query k
  | none => none

/-- Reads one auth param of one named profile of a config. -/
def profAuthParams (c : APIConfig) (pname k : String) : Option String :=
  match profLookup c.profiles pname with
  | some p => authParams p k
  | none => none

/-- The registry-update step of loadLocalConfig (cli/apiconfig.go:431-444):
an API already present receives a deep merge of the local entry, a new API
name is inserted as-is. -/
def loadLocalEntry (configs : List (String × APIConfig)) (k : String) (localConfig : APIConfig) :
    List (String × APIConfig) :=
  match assocLookup configs k with
  | some existing => assocSet configs k (deepMergeAPIConfig existing localConfig)
  | none => configs ++ [(k, localConfig)]

/-- A global-layer entry for one API: base plus a default profile sending
header a:1. -/
def demoGlobalCfg : APIConfig :=
  { base := "https://global.example.com"
    operationBase := ""
    specFiles := ["one.yaml"]
    profiles := [("default", some { base := "", headers := [("a", "1")], query := [], auth := none })]
    tls := none }

/-- A local-layer override for the same API: a new base plus a default
profile sending header b:2. -/
def demoLocalCfg : APIConfig :=
  { base := "https://local.example.com"
    operationBase := ""
    specFiles := ["one.yaml", "two.yaml"]
    profiles := [("default", some { base := "", headers := [("b", "2")], query := [], auth := none })]
    tls := none }

/-- Boolean lexicographic string comparison. -/
def strLeB (a b : String) : Bool :=
  decide (a ≤ b)

/-- Insertion into a lexicographically sorted list of strings. -/
def insertStr (x : String) : List String → List String
  | [] => [x]
  | a :: t => if strLeB x a then x :: a :: t else a :: insertStr x t

/-- Insertion sort on strings, the model of sort.Strings from the Go
standard library (both orders are bytewise lexicographic). -/
def sortStrings : List String → List String
  | [] => []
  | a :: t => insertStr a (sortStrings t)

/-- Boolean check that a list of strings is sorted ascending. -/
def isSortedStrB : List String → Bool
  | [] => true
  | [_] => true
  | a :: b :: t => strLeB a b && isSortedStrB (b :: t)

/-- Occurrence count of one string in a list. -/
def countStr : List String → String → Nat
  | [], _ => 0
  | a :: t, y => (if a = y then 1 else 0) + countStr t y

/-- Whether the first char list is a leading segment of the second. -/
def leadsCharList : List Char → List Char → Bool
  | [], _ => true
  | _ :: _, [] => false
  | a :: s, b :: t => a == b && leadsCharList s t

/-- Whether sub occurs contiguously inside l. -/
def containsSub : List Char → List Char → Bool
  | [], sub => leadsCharList sub []
  | a :: t, sub => leadsCharList sub (a :: t) || containsSub t sub

/-- Substring test on strings, via their char lists. -/
def strContains (s sub : String) : Bool :=
  containsSub s.toList sub.toList

/-- The model of strings.HasPrefix from the Go standard library: s starts
with pre. -/
def strStartsWith (s pre : String) : Bool :=
  leadsCharList pre.toList s.toList

/-- The not-found message of cli/apiconfig.go:325 for an API declaring no
profiles. -/
def noProfilesMsg (profileName configName : String) : String :=
  "profile \x27" ++ profileName ++ "\x27 not found for API \x27" ++ configName ++
    "\x27 (no profiles defined)"

/-- The not-found message of cli/apiconfig.go:328, enumerating available
profile names joined by comma-space. -/
def availableMsg (profileName configName : String) (available : List String) : String :=
  "profile \x27" ++ profileName ++ "\x27 not found for API \x27" ++ configName ++
    "\x27. Available profiles: " ++ String.intercalate ", " available

/-- validateProfile (cli/apiconfig.go:307): the implicit default profile is
always valid even when undeclared; a declared (non-nil) profile is valid;
anything else produces an error listing the available profile names in
sorted order, or a no-profiles message when the map is empty.  A none
result models a nil Go error. -/
def validateProfile (profileName : String) (profiles : List (String × Option APIProfile))
    (configName : String) : Option String :=
  if profileName == "default" && (profLookup profiles profileName).isNone then none
  else if (profLookup profiles profileName).isSome then none
  else
    let available := sortStrings (profiles.map Prod.fst)
    if available.length = 0 then some (noProfilesMsg profileName configName)
    else some (availableMsg profileName configName available)

/-- An API declaring only the profile prod. -/
def demoProdProfiles : List (String × Option APIProfile) :=
  [("prod", some emptyProfile)]

/-- One step of the duplicate-base startup loop of initAPIConfig
(cli/apiconfig.go:626-632); the Go panic is modelled as an error value that
is sticky for the rest of the fold. -/
def baseSeenStep (acc : Except String (List String)) (kv : String × APIConfig) :
    Except String (List String) :=
  match acc with
  | .error e => .error e
  | .ok seen =>
    if seen.contains kv.2.base then
      .error ("multiple APIs configured with the same base URL: " ++ kv.2.base)
    else .ok (seen ++ [kv.2.base])

/-- The duplicate-base check run over the whole registry at startup. -/
def checkDuplicateBases (cfgs : List (String × APIConfig)) : Except String (List String) :=
  cfgs.foldl baseSeenStep (.ok [])

/-- Whether an Except value is the error case. -/
def isErr {α β : Type u} : Except α β → Bool
  | .error _ => true
  | .ok _ => false

/-- The pure meaning of the seen-set loop: every base is new relative to
the accumulated seen list. -/
def noDupFrom (seen : List String) : List String → Bool
  | [] => true
  | x :: t => !(seen.contains x) && noDupFrom (seen ++ [x]) t

/-- Two registry entries with distinct names but one shared base URL. -/
def demoDupA : APIConfig :=
  { base := "https://same.example.com", operationBase := "", specFiles := [],
    profiles := [], tls := none }

/-- Second entry sharing the base of demoDupA. -/
def demoDupB : APIConfig :=
  { base := "https://same.example.com", operationBase := "", specFiles := ["b.yaml"],
    profiles := [], tls := none }

/-- findAPI (cli/apiconfig.go:650): iterate the registry; skip entries not
matching a non-empty api-name filter; when the active profile is not
default, skip candidates lacking the profile and match the profile base
when it is non-empty, else the API base; when the active profile is
default, match the API base; return the first prefix match.  The viper
globals api-name and rsh-profile are passed as arguments, and the registry
is the iteration sequence of the Go configs map. -/
def findAPI (apiName rshProfile : String) :
    List (String × APIConfig) → String → Option (String × APIConfig)
  | [], _ => none
  | (name, config) :: rest, uri =>
    if 0 < apiName.length ∧ name ≠ apiName then findAPI apiName rshProfile rest uri
    else if rshProfile ≠ "default" then
      match profLookup config.profiles rshProfile with
      | none => findAPI apiName rshProfile rest uri
      | some prof =>
        if prof.base ≠ "" then
          if strStartsWith uri prof.base then some (name, config)
          else findAPI apiName rshProfile rest uri
        else if strStartsWith uri config.base then some (name, config)
        else findAPI apiName rshProfile rest uri
    else if strStartsWith uri config.base then some (name, config)
    else findAPI apiName rshProfile rest uri

/-- The effective base exactly as claim C2 words it: the active profile
base when that profile defines one, else the API base.  This definition
follows the claim text, not the source; it exists to compare the claim
against the code. -/
def effectiveBaseClaim (rshProfile : String) (c : APIConfig) : String :=
  match profLookup c.profiles rshProfile with
  | some p => if p.base ≠ "" then p.base else c.base
  | none => c.base

/-- The lookup rule exactly as claim C2 words it: restrict to the filter
name when set, then return the first candidate whose effective base is a
prefix of the URI.  Definition from the claim text, used only to compare
with findAPI. -/
def findAPIClaim (apiName rshProfile : String) (cfgs : List (String × APIConfig))
    (uri : String) : Option (String × APIConfig) :=
  (cfgs.filter (fun nc => !(0 < apiName.length ∧ nc.1 ≠ apiName : Bool))).find?
    (fun nc => strStartsWith uri (effectiveBaseClaim rshProfile nc.2))

/-- The base the code would match a candidate against, or none when the
candidate is skipped outright: when the active profile is not default a
candidate lacking that profile is skipped, and a declared profile with a
non-empty base replaces the API base; under the default profile the API
base is always used. -/
def effectiveCandidate (rshProfile : String) (c : APIConfig) : Option String :=
  if rshProfile ≠ "default" then
    match profLookup c.profiles rshProfile with
    | none => none
    | some p => some (if p.base ≠ "" then p.base else c.base)
  else some c.base

/-- The amended lookup rule: first candidate, after the name filter, whose
effective matching base (per effectiveCandidate) is a prefix of the URI. -/
def findAPIAmended (apiName rshProfile : String) :
    List (String × APIConfig) → String → Option (String × APIConfig)
  | [], _ => none
  | nc :: rest, uri =>
    if 0 < apiName.length ∧ nc.1 ≠ apiName then findAPIAmended apiName rshProfile rest uri
    else
      match effectiveCandidate rshProfile nc.2 with
      | none => findAPIAmended apiName rshProfile rest uri
      | some b =>
        if strStartsWith uri b then some nc else findAPIAmended apiName rshProfile rest uri

/-- A config whose declared default profile carries its own base. -/
def demoC2Cfg : APIConfig :=
  { base := "/b", operationBase := "", specFiles := [],
    profiles := [("default", some { base := "/p", headers := [], query := [], auth := none })],
    tls := none }

/-- Two APIs with nested bases. -/
def demoPrefixRegistry : List (String × APIConfig) :=
  [("a", { base := "/a", operationBase := "", specFiles := [], profiles := [], tls := none }),
   ("ab", { base := "/a/b", operationBase := "", specFiles := [], profiles := [], tls := none })]

/-
Local-config discovery (C8).  A directory is a list of path components
with the DEEPEST component first, so the parent directory is the tail and
the filesystem root is the empty list; this makes the Go loop walking
dir = filepath.Dir(dir) until it reaches the root a structural recursion.
The filesystem is the list of paths of the existing files, and os.Stat
succeeding is membership.
-/

/-- Render a directory as an absolute path string. -/
def dirPath (d : List String) : String :=
  "/" ++ String.intercalate "/" d.reverse

/-- filepath.Join of a directory and a file name. -/
def joinPath (d : List String) (name : String) : String :=
  if d.isEmpty then "/" ++ name else dirPath d ++ "/" ++ name

/-- The per-directory probe of findAllLocalConfigs (cli/apiconfig.go:355-
366): .restish.json is preferred, .restish.yaml is only consulted when the
json file is absent, and at most one path is collected per directory. -/
def checkDir (files : List String) (d : List String) : List String :=
  let j := joinPath d ".restish.json"
  if files.contains j then [j]
  else
    let y := joinPath d ".restish.yaml"
    if files.contains y then [y] else []

/-- The walk loop of findAllLocalConfigs: probe the current directory, then
its parent, stopping after the root. -/
def walkUp (files : List String) : List String → List String
  | [] => checkDir files []
  | x :: parent => checkDir files (x :: parent) ++ walkUp files parent

/-- findAllLocalConfigs (cli/apiconfig.go:335): an rsh-config override that
names an existing file short-circuits discovery; an override that does not
exist is logged and ignored; otherwise the collected list is reversed so
merging runs root-first. -/
def findAllLocalConfigs (rshConfig : String) (files : List String) (cwd : List String) :
    List String :=
  if rshConfig ≠ "" then
    if files.contains rshConfig then [rshConfig]
    else (walkUp files cwd).reverse
  else (walkUp files cwd).reverse

/-- Discovery exactly as claim C8 words it: a supplied override path
replaces tree-walking entirely.  Definition from the claim text, used only
to compare with findAllLocalConfigs. -/
def claimFindAllLocalConfigs (rshConfig : String) (files : List String) (cwd : List String) :
    List String :=
  if rshConfig ≠ "" then [rshConfig]
  else (walkUp files cwd).reverse

/-- The chain of directories from a starting directory up to the root. -/
def dirChain : List String → List (List String)
  | [] => [[]]
  | x :: t => (x :: t) :: dirChain t

/-
Base-path resolution (C3), openapi.go getBasePath.
-/

/-- The scheme, host and path of a parsed URL, the three pieces of
net/url.URL that getBasePath consults. -/
structure GoURL where
  scheme : String
  host : String
  path : String
deriving DecidableEq, Repr

/-- Splits a char list at the first occurrence of sub, dropping sub. -/
def breakOnSub : List Char → List Char → Option (List Char × List Char)
  | l, sub =>
    if leadsCharList sub l then some ([], l.drop sub.length)
    else
      match l with
      | [] => none
      | a :: t =>
        match breakOnSub t sub with
        | some (b, aft) => some (a :: b, aft)
        | none => none

/-- Modelled from the spec: net/url.Parse of the Go standard library,
restricted to the scheme://host/path shapes getBasePath feeds it — the
text before the first :// is the scheme, then the text before the next /
is the host, and the rest (with its leading slash) is the path; a string
with no :// parses as a bare path with empty scheme and host. -/
def parseURL (s : String) : GoURL :=
  match breakOnSub s.toList ("://".toList) with
  | none => ⟨"", "", s⟩
  | some (sch, rest) =>
    match breakOnSub rest ("/".toList) with
    | none => ⟨String.mk sch, String.mk rest, ""⟩
    | some (h, pathRest) => ⟨String.mk sch, String.mk h, String.mk ('/' :: pathRest)⟩

/-- The model of strings.TrimSuffix: drop one trailing occurrence of the
given ending when present. -/
def trimSuffixStr (s ending : String) : String :=
  if leadsCharList ending.toList.reverse s.toList.reverse then
    String.mk (s.toList.take (s.toList.length - ending.toList.length))
  else s

/-- One declared server variable: its enumeration (possibly empty) and its
declared default value (the Default field). -/
structure ServerVariable where
  enum : List String
  dflt : String
deriving DecidableEq, Repr

/-- One declared server: its URL template and its variables in declaration
order (the ordered map iterated FromOldest). -/
structure OAServer where
  url : String
  vars : List (String × ServerVariable)
deriving DecidableEq, Repr

/-- The variable-expansion loop of getBasePath (openapi.go:129-155): a
variable with no enumeration substitutes its default into every candidate;
an enumerated variable fans the candidates out into the cross-product,
enumeration-major as the index arithmetic i+j*len(endpoints) lays out. -/
def expandEndpoints (u : String) (vars : List (String × ServerVariable)) : List String :=
  vars.foldl
    (fun endpoints kv =>
      let key := "\x7b" ++ kv.1 ++ "\x7d"
      if kv.2.enum.isEmpty then endpoints.map (fun e => e.replace key kv.2.dflt)
      else (kv.2.enum.map (fun val => endpoints.map (fun e => e.replace key val))).flatten)
    [u]

/-- getBasePath (openapi.go:118): a server URL starting with / is returned
as the base path at once; otherwise the first expanded endpoint having
scheme://host of the configured base as a string prefix contributes its
parsed path with a trailing slash trimmed; when no server matches, the
configured base URL path is the answer. -/
def getBasePath (location : GoURL) : List OAServer → String
  | [] => location.path
  | s :: rest =>
    if strStartsWith s.url "/" then s.url
    else
      let prefx := location.scheme ++ "://" ++ location.host
      match (expandEndpoints s.url s.vars).find? (fun e => strStartsWith e prefx) with
      | some e => trimSuffixStr (parseURL e).path "/"
      | none => getBasePath location rest

/-- Base-path resolution exactly as claim C3 words it: expand every server
URL, return the path of the first expanded URL whose scheme and host equal
those of the configured base, else the configured base path.  Definition
from the claim text, used only to compare with getBasePath. -/
def getBasePathClaim (location : GoURL) (servers : List OAServer) : String :=
  match (servers.map (fun s => expandEndpoints s.url s.vars)).flatten.find?
      (fun e =>
        let u := parseURL e
        u.scheme == location.scheme && u.host == location.host) with
  | some e => (parseURL e).path
  | none => location.path

/-- The contribution of one server under the amended reading of C3. -/
def serverResult (location : GoURL) (s : OAServer) : Option String :=
  if strStartsWith s.url "/" then some s.url
  else
    ((expandEndpoints s.url s.vars).find?
        (fun e => strStartsWith e (location.scheme ++ "://" ++ location.host))).map
      (fun e => trimSuffixStr (parseURL e).path "/")

/-- Declarative form of the amended base-path rule: the first server
contribution in declaration order, with the configured base path as
fallback. -/
def getBasePathAmended (location : GoURL) (servers : List OAServer) : String :=
  (servers.foldr (fun s acc => orElseO (serverResult location s) acc) none).getD location.path

/-
Parameter merging and compilation (C5), openapi.go openapiOperation lines
239-344.  YAML example and default nodes are modelled already decoded (the
Go code decodes them with decodeYAML, aborting the process on failure).
-/

/-- A decoded YAML scalar, enough structure to distinguish values. -/
inductive YamlVal
  | yStr (s : String)
  | yInt (n : Int)
  | yBool (b : Bool)
deriving DecidableEq, Repr

/-- Parameter serialization style (cli.StyleSimple / cli.StyleForm). -/
inductive ParamStyle
  | simple
  | form
deriving DecidableEq, Repr

/-- The pieces of a declared parameter schema that openapiOperation reads:
the type array, the item-schema type array when Items is a schema, the
declared default and the declared example. -/
structure ParamSchema where
  type : List String
  items : Option (List String)
  dflt : Option YamlVal
  exampleVal : Option YamlVal
deriving DecidableEq, Repr

/-- A declared OpenAPI parameter as openapiOperation consumes it; inLoc is
the in field (path, query or header), extName, extDescription and
extIgnore are the already-extracted CLI extensions. -/
structure OAParameter where
  name : String
  inLoc : String
  description : String
  style : String
  explode : Option Bool
  schema : Option ParamSchema
  exampleVal : Option YamlVal
  extName : String
  extDescription : Option String
  extIgnore : Bool
deriving DecidableEq, Repr

/-- The fields of cli.Param that lines 310-322 populate. -/
structure Param where
  type : String
  name : String
  displayName : String
  description : String
  style : ParamStyle
  explode : Bool
  dflt : Option YamlVal
  exampleVal : Option YamlVal
deriving DecidableEq, Repr

/-- Lines 239-249: operation parameters first, then the enclosing path
item parameters whose names were not seen among the operation ones. -/
def combineParams (opParams pathParams : List OAParameter) : List OAParameter :=
  let st := opParams.foldl
    (fun (acc : List OAParameter × List String) p => (acc.1 ++ [p], acc.2 ++ [p.name]))
    ([], [])
  pathParams.foldl
    (fun acc p => if st.2.contains p.name then acc else acc ++ [p]) st.1

/-- Lines 256-322: compile one declared parameter into a cli.Param,
mirroring the Go control flow: type string unless the schema says
otherwise, one level of array-item typing, default and example read off
the schema, the parameter-level example overriding, form style only when
declared form, explode mirrored when declared. -/
def openapiParam (p : OAParameter) : Param :=
  let typ0 := "string"
  let typ1 :=
    match p.schema with
    | none => typ0
    | some s =>
      match s.type with
      | [] => typ0
      | t :: _ => t
  let typ2 :=
    match p.schema with
    | none => typ1
    | some s =>
      if typ1 = "array" then
        match s.items with
        | some (it :: _) => typ1 ++ "[" ++ it ++ "]"
        | _ => typ1
      else typ1
  let def0 : Option YamlVal :=
    match p.schema with
    | some s => s.dflt
    | none => none
  let ex0 : Option YamlVal :=
    match p.schema with
    | some s => s.exampleVal
    | none => none
  let ex1 : Option YamlVal :=
    match p.exampleVal with
    | some e => some e
    | none => ex0
  let style := if p.style = "form" then ParamStyle.form else ParamStyle.simple
  { type := typ2
    name := p.name
    displayName := p.extName
    description := p.extDescription.getD p.description
    style := style
    explode := p.explode.getD false
    dflt := def0
    exampleVal := ex1 }

/-- The per-location dispatch of lines 251-343: parameters carrying the
ignore extension are dropped, the rest are compiled and grouped by their
in location. -/
def paramSelect (ps : List OAParameter) (loc : String) : List Param :=
  (ps.filter (fun p => !p.extIgnore && p.inLoc == loc)).map openapiParam

/-- The example precedence exactly as claim C5 words it: parameter example
over schema example over schema default.  Definition from the claim text,
used only to compare with openapiParam. -/
def claimParamExample (p : OAParameter) : Option YamlVal :=
  orElseO p.exampleVal
    (orElseO (p.schema.bind (fun s => s.exampleVal)) (p.schema.bind (fun s => s.dflt)))

/-- The type inference of lines 259-276 in declarative form. -/
def paramTypeSpec (p : OAParameter) : String :=
  match p.schema with
  | none => "string"
  | some s =>
    match s.type with
    | [] => "string"
    | t :: _ =>
      if t = "array" then
        match s.items with
        | some (it :: _) => "array[" ++ it ++ "]"
        | _ => "array"
      else t

/-- A query parameter whose schema declares a default but no example. -/
def demoC5Param : OAParameter :=
  { name := "limit", inLoc := "query", description := "", style := "", explode := none,
    schema := some { type := ["integer"], items := none, dflt := some (.yInt 10),
                     exampleVal := none },
    exampleVal := none, extName := "", extDescription := none, extIgnore := false }

/-
Operation naming (C6), openapi.go openapiOperation lines 346-359.
-/

/-- Whether a character is a letter or a digit. -/
def isAlnumC (c : Char) : Bool :=
  c.isAlpha || c.isDigit

/-- One step of the token scan behind the dash-case conversion: running
token list, current token, previous character. -/
def kebabStep (st : List (List Char) × List Char × Option Char) (c : Char) :
    List (List Char) × List Char × Option Char :=
  let done := st.1
  let cur := st.2.1
  let prev := st.2.2
  if !(isAlnumC c) then
    ((if cur.isEmpty then done else done ++ [cur]), [], some c)
  else if c.isUpper &&
      (match prev with
       | some p => p.isLower || p.isDigit
       | none => false) then
    ((if cur.isEmpty then done else done ++ [cur]), [c], some c)
  else
    (done, cur ++ [c], some c)

/-- Modelled from the spec: the dash-case conversion performed by the
external casing library (casing.Kebab) — split on non-alphanumeric
separators and lower-to-upper camel boundaries, lowercase every token,
join with dashes. -/
def kebab (s : String) : String :=
  let st := s.toList.foldl kebabStep ([], [], none)
  let toks := if st.2.1.isEmpty then st.1 else st.1 ++ [st.2.1]
  String.intercalate "-" (toks.map (fun t => String.mk (t.map Char.toLower)))

/-- One step of the legacy slug scan: keep alphanumerics, collapse
separator runs into single dashes, never start with a dash. -/
def slugStep (acc : List Char) (c : Char) : List Char :=
  if isAlnumC c then acc ++ [c]
  else
    match acc with
    | [] => []
    | _ => if acc.getLast? = some '-' then acc else acc ++ ['-']

/-- Modelled from the spec: the legacy slug naming of the external slug
library (slug.Make) — lowercase, replace separator runs with single
dashes, trim dashes at the ends. -/
def slugMake (s : String) : String :=
  let r := (s.toList.map Char.toLower).foldl slugStep []
  String.mk (r.reverse.dropWhile (fun c => c == '-')).reverse

/-- strings.Trim of leading and trailing slashes, as applied to the URI
template path. -/
def trimSlashes (s : String) : String :=
  String.mk ((s.toList.dropWhile (fun c => c == '/')).reverse.dropWhile
    (fun c => c == '/')).reverse

/-- The naming inputs of one operation: the declared identifier and the
already-extracted name and alias extensions. -/
structure OpNaming where
  operationId : String
  extName : String
  extAliases : List String
deriving DecidableEq, Repr

/-- Lines 346-359 of openapi.go: kebab the operation id, fall back to a
kebab of method-path, let a non-empty name extension override, and only
when no override is present retain a differing non-empty legacy slug of
the operation id as an extra alias. -/
def operationNameAliases (op : OpNaming) (method uriPath : String) : String × List String :=
  let aliases := op.extAliases
  let name := kebab op.operationId
  let name := if name = "" then kebab (method ++ "-" ++ trimSlashes uriPath) else name
  if op.extName ≠ "" then (op.extName, aliases)
  else
    let oldName := slugMake op.operationId
    if oldName ≠ "" ∧ oldName ≠ name then (name, aliases ++ [oldName]) else (name, aliases)

/-- An operation with identifier getWidget and an explicit name override. -/
def demoC6Op : OpNaming :=
  { operationId := "getWidget", extName := "my-op", extAliases := [] }

/-
Response grouping (C4), openapi.go openapiOperation lines 443-546.
Schema content hashes ([32]byte values of GoLow().Hash()) are modelled as
Nat, with 0 playing the all-zero array that marks a missing schema; the
markdown rendering of each documentation section is abstracted into a
Section record carrying exactly what the lines print: whether the
single-code header form is used, the listed codes, the shown content type,
whether a schema block follows, and the sorted header names listed. -/

/-- One declared response: its content entries as (content type, schema
hash option — none models a nil schema) in declaration order, and its
declared header names in declaration order. -/
structure RespInfo where
  content : List (String × Option Nat)
  headerNames : List String
deriving DecidableEq, Repr

/-- One schemaEntry of openapi.go:455-459. -/
structure SchemaEntryL where
  code : String
  ct : String
  hash : Nat
deriving DecidableEq, Repr

/-- The respMap of lines 444-452: declared codes plus the default
response. -/
def respMapOf (responses : List (String × RespInfo)) (dflt : Option RespInfo) :
    List (String × RespInfo) :=
  responses ++
    (match dflt with
     | some r => [("default", r)]
     | none => [])

/-- The codes list of lines 443-453: declared codes plus default, sorted
as strings. -/
def codesOf (responses : List (String × RespInfo)) (dflt : Option RespInfo) : List String :=
  sortStrings
    ((responses.map Prod.fst) ++
      (match dflt with
       | some _ => ["default"]
       | none => []))

/-- The per-code entry collection of lines 461-495: one entry per content
type carrying the schema hash (zero for a nil schema), or a single
zero-hash entry when the response declares no content. -/
def entriesForCode (rm : List (String × RespInfo)) (code : String) : List SchemaEntryL :=
  match assocLookup rm code with
  | none => []
  | some resp =>
    if resp.content.isEmpty then [⟨code, "", 0⟩]
    else resp.content.map (fun ctInfo =>
      ⟨code, ctInfo.1,
        match ctInfo.2 with
        | some h => h
        | none => 0⟩)

/-- All entries, in sorted-code order. -/
def buildEntries (responses : List (String × RespInfo)) (dflt : Option RespInfo) :
    List SchemaEntryL :=
  (codesOf responses dflt).foldl
    (fun acc code => acc ++ entriesForCode (respMapOf responses dflt) code) []

/-- One append into the schemaMap: the entry joins its hash bucket,
buckets being kept in first-appearance order. -/
def addEntry (gs : List (Nat × List SchemaEntryL)) (e : SchemaEntryL) :
    List (Nat × List SchemaEntryL) :=
  match gs with
  | [] => [(e.hash, [e])]
  | (h, l) :: rest => if h = e.hash then (h, l ++ [e]) :: rest else (h, l) :: addEntry rest e

/-- The schemaMap of lines 460-495 as an insertion-ordered bucket list. -/
def groupEntries (es : List SchemaEntryL) : List (Nat × List SchemaEntryL) :=
  es.foldl addEntry []

/-- The code of a bucket's first entry, the sort key of lines 497-500. -/
def headCode : List SchemaEntryL → String
  | [] => ""
  | e :: _ => e.code

/-- The content type of a bucket's first entry. -/
def headCt : List SchemaEntryL → String
  | [] => ""
  | e :: _ => e.ct

/-- Insertion into a bucket list sorted by first-entry code. -/
def insertGroup (g : Nat × List SchemaEntryL) :
    List (Nat × List SchemaEntryL) → List (Nat × List SchemaEntryL)
  | [] => [g]
  | g2 :: t => if strLeB (headCode g.2) (headCode g2.2) then g :: g2 :: t
               else g2 :: insertGroup g t

/-- The sort of lines 497-500: buckets ordered by their first code. -/
def sortGroups : List (Nat × List SchemaEntryL) → List (Nat × List SchemaEntryL)
  | [] => []
  | g :: t => insertGroup g (sortGroups t)

/-- Boolean check that the bucket list is ordered by first code. -/
def groupsSortedB : List (Nat × List SchemaEntryL) → Bool
  | [] => true
  | [_] => true
  | g1 :: g2 :: t => strLeB (headCode g1.2) (headCode g2.2) && groupsSortedB (g2 :: t)

/-- What one documentation section of lines 502-546 shows. -/
structure Section where
  single : Bool
  codes : List String
  hasSchema : Bool
  ct : String
  headerNames : List String
deriving DecidableEq, Repr

/-- Render one bucket as a section: the single-code header form is used
exactly for a one-entry bucket whose code resolves in the respMap; the
codes listed are the entry codes in bucket order; a content type and a
schema block appear only for a non-zero hash; the representative response
headers are listed sorted when non-empty. -/
def mkSection (rm : List (String × RespInfo)) (g : Nat × List SchemaEntryL) : Section :=
  let entries := g.2
  { single := entries.length == 1 && (assocLookup rm (headCode entries)).isSome
    codes := entries.map (fun e => e.code)
    hasSchema := g.1 != 0
    ct := if g.1 != 0 then headCt entries else ""
    headerNames :=
      match assocLookup rm (headCode entries) with
      | some r => if r.headerNames.isEmpty then [] else sortStrings r.headerNames
      | none => [] }

/-- The response-documentation sections of one operation. -/
def openapiSections (responses : List (String × RespInfo)) (dflt : Option RespInfo) :
    List Section :=
  (sortGroups (groupEntries (buildEntries responses dflt))).map
    (mkSection (respMapOf responses dflt))

/-- First-occurrence de-duplication of strings. -/
def dedupStrAux (seen : List String) : List String → List String
  | [] => []
  | x :: t => if seen.contains x then dedupStrAux seen t else x :: dedupStrAux (seen ++ [x]) t

/-- First-occurrence de-duplication of strings, from scratch. -/
def dedupStr (l : List String) : List String :=
  dedupStrAux [] l

/-- First-occurrence de-duplication of hashes relative to already-seen
keys. -/
def dedupNatAux (seen : List Nat) : List Nat → List Nat
  | [] => []
  | x :: t => if seen.contains x then dedupNatAux seen t else x :: dedupNatAux (seen ++ [x]) t

/-- First-occurrence de-duplication of hashes. -/
def dedupNat (l : List Nat) : List Nat :=
  dedupNatAux [] l

/-- The sections exactly as claim C4 words them: a section lists either
its single code or the joined SET of its codes, so duplicate codes never
repeat.  Definition from the claim text, used only to compare with
openapiSections. -/
def claimSections (responses : List (String × RespInfo)) (dflt : Option RespInfo) :
    List Section :=
  (sortGroups (groupEntries (buildEntries responses dflt))).map
    (fun g =>
      let s := mkSection (respMapOf responses dflt) g
      { s with codes := dedupStr s.codes })

/-- The spec form of the bucket list: distinct hashes in first-appearance
order, each holding all entries of that hash in entry order. -/
def extendGroups (acc : List (Nat × List SchemaEntryL)) (es : List SchemaEntryL) :
    List (Nat × List SchemaEntryL) :=
  acc.map (fun g => (g.1, g.2 ++ es.filter (fun e => e.hash == g.1)))
  ++ (dedupNatAux (acc.map Prod.fst) (es.map (fun e => e.hash))).map
      (fun h => (h, es.filter (fun e => e.hash == h)))

/-- Key-list duplicate freedom for bucket lists. -/
def noDupNat : List Nat → Bool
  | [] => true
  | x :: t => !t.contains x && noDupNat t

/-- One response code with two content types sharing one schema hash. -/
def demoC4Responses : List (String × RespInfo) :=
  [("200", { content := [("application/json", some 7), ("application/yaml", some 7)],
             headerNames := [] })]

theorem assocLookup_assocSet_self {α : Type u} (m : List (String × α)) (k : String) (v : α) :
    assocLookup (assocSet m k v) k = some v := by
  induction m with
  | nil => simp [assocSet, assocLookup]
  | cons p t ih =>
    obtain ⟨k0, v0⟩ := p
    by_cases h : k0 = k
    · subst h; simp [assocSet, assocLookup]
    · have h2 : ¬k = k0 := fun hc => h hc.symm
      simp [assocSet, assocLookup, h, h2, ih]

theorem assocLookup_assocSet_ne {α : Type u} (m : List (String × α)) (k : String) (v : α)
    (k' : String) (h : k' ≠ k) : assocLookup (assocSet m k v) k' = assocLookup m k' := by
  induction m with
  | nil => simp [assocSet, assocLookup, h]
  | cons p t ih =>
    obtain ⟨k0, v0⟩ := p
    by_cases h0 : k0 = k
    · subst h0; simp [assocSet, assocLookup, h]
    · simp [assocSet, assocLookup, h0, ih]

theorem anyKey_false_lookup {α : Type u} (m : List (String × α)) (k : String)
    (h : anyKey m k = false) : assocLookup m k = none := by
  induction m with
  | nil => simp [assocLookup]
  | cons p t ih =>
    obtain ⟨k0, v0⟩ := p
    by_cases h0 : k0 = k
    · simp [anyKey, h0] at h
    · have hk : ¬k = k0 := fun hc => h0 hc.symm
      simp [anyKey, h0] at h
      simp [assocLookup, hk, ih h]

theorem noDupKeys_cons {α : Type u} (k0 : String) (v0 : α) (t : List (String × α))
    (h : noDupKeys ((k0, v0) :: t) = true) : anyKey t k0 = false ∧ noDupKeys t = true := by
  simp [noDupKeys, Bool.and_eq_true, Bool.not_eq_true'] at h
  exact h

/-- Per-key characterisation of the Go map-merge loop: when the source map
has no duplicate keys, a key reads from the source when present there and
from the dest otherwise. -/
theorem mergeStrMap_lookup (d s : StrMap) (h : noDupKeys s = true) (k : String) :
    assocLookup (mergeStrMap d s) k = orElseO (assocLookup s k) (assocLookup d k) := by
  induction s generalizing d with
  | nil => simp [mergeStrMap, assocLookup, orElseO]
  | cons p t ih =>
    obtain ⟨k0, v0⟩ := p
    obtain ⟨h1, h2⟩ := noDupKeys_cons k0 v0 t h
    rw [mergeStrMap, List.foldl_cons]
    have ihm := ih (assocSet d k0 v0) h2
    rw [mergeStrMap] at ihm
    rw [ihm]
    by_cases hk : k = k0
    · subst hk
      rw [anyKey_false_lookup t k h1]
      simp [assocLookup, orElseO, assocLookup_assocSet_self]
    · simp [assocLookup, hk, orElseO, assocLookup_assocSet_ne _ _ _ _ hk]

/-- The spec-file append loop keeps dest order and then appends the source
entries missing from the snapshot, in source order. -/
theorem specAppend_foldl (existing : List String) (src acc : List String) :
    src.foldl (specAppendStep existing) acc
      = acc ++ src.filter (fun x => !(existing.contains x)) := by
  induction src generalizing acc with
  | nil => simp
  | cons x t ih =>
    rw [List.foldl_cons, ih]
    by_cases hx : x ∈ existing
    · simp [specAppendStep, List.filter_cons, hx]
    · simp [specAppendStep, List.filter_cons, hx]

theorem tls_mergeBasePart (d s : APIConfig) : (mergeBasePart d s).tls = d.tls := by
  unfold mergeBasePart; split <;> rfl

theorem tls_mergeOpBasePart (d s : APIConfig) : (mergeOpBasePart d s).tls = d.tls := by
  unfold mergeOpBasePart; split <;> rfl

theorem tls_mergeSpecFilesPart (d s : APIConfig) : (mergeSpecFilesPart d s).tls = d.tls := by
  unfold mergeSpecFilesPart; split <;> rfl

theorem tls_mergeProfilesPart (d s : APIConfig) : (mergeProfilesPart d s).tls = d.tls := by
  unfold mergeProfilesPart; split <;> rfl

theorem tls_deepMergeAPIConfig (d s : APIConfig) :
    (deepMergeAPIConfig d s).tls = (mergeTLSPart d s).tls := by
  unfold deepMergeAPIConfig mergeTLSPart
  cases s.tls with
  | none =>
    simp [tls_mergeBasePart, tls_mergeOpBasePart, tls_mergeSpecFilesPart, tls_mergeProfilesPart]
  | some st =>
    simp [tls_mergeBasePart, tls_mergeOpBasePart, tls_mergeSpecFilesPart, tls_mergeProfilesPart]

/-- C10: TLS insecure-skip-verify is monotone under config merging: after
deepMergeAPIConfig the destination flag is true exactly when it was already
true in the destination or is true in the source; a later layer can never
reset an earlier insecure=true back to false. -/
theorem claim_C10_tls_insecure_monotone (d s : APIConfig) :
    tlsInsecure (deepMergeAPIConfig d s) = (tlsInsecure d || tlsInsecure s) := by
  unfold tlsInsecure
  rw [tls_deepMergeAPIConfig]
  unfold mergeTLSPart
  cases hs : s.tls with
  | none => cases d.tls <;> simp
  | some st =>
    cases hd : d.tls with
    | none =>
      by_cases hi : st.insecureSkipVerify <;>
        simp [hd, Option.getD, emptyTLS, hi] <;>
        split <;> (try split) <;> (try split) <;> (try split) <;> simp
    | some dt =>
      by_cases hi : st.insecureSkipVerify <;>
        simp [hd, Option.getD, hi] <;>
        split <;> (try split) <;> (try split) <;> (try split) <;> simp

theorem isEmpty_eq_nil {α : Type u} (l : List α) (h : l.isEmpty = true) : l = [] := by
  cases l with
  | nil => rfl
  | cons a t => simp [List.isEmpty] at h

theorem base_mergeBasePart (d s : APIConfig) :
    (mergeBasePart d s).base = if s.base ≠ "" then s.base else d.base := by
  unfold mergeBasePart; split <;> simp_all

theorem base_mergeOpBasePart (d s : APIConfig) : (mergeOpBasePart d s).base = d.base := by
  unfold mergeOpBasePart; split <;> rfl

theorem base_mergeSpecFilesPart (d s : APIConfig) : (mergeSpecFilesPart d s).base = d.base := by
  unfold mergeSpecFilesPart; split <;> rfl

theorem base_mergeProfilesPart (d s : APIConfig) : (mergeProfilesPart d s).base = d.base := by
  unfold mergeProfilesPart; split <;> rfl

theorem base_mergeTLSPart (d s : APIConfig) : (mergeTLSPart d s).base = d.base := by
  unfold mergeTLSPart; cases s.tls <;> rfl

theorem base_deepMerge (d s : APIConfig) :
    (deepMergeAPIConfig d s).base = if s.base ≠ "" then s.base else d.base := by
  unfold deepMergeAPIConfig
  rw [base_mergeTLSPart, base_mergeProfilesPart, base_mergeSpecFilesPart, base_mergeOpBasePart,
    base_mergeBasePart]

theorem opBase_mergeBasePart (d s : APIConfig) :
    (mergeBasePart d s).operationBase = d.operationBase := by
  unfold mergeBasePart; split <;> rfl

theorem opBase_mergeOpBasePart (d s : APIConfig) :
    (mergeOpBasePart d s).operationBase
      = if s.operationBase ≠ "" then s.operationBase else d.operationBase := by
  unfold mergeOpBasePart; split <;> simp_all

theorem opBase_mergeSpecFilesPart (d s : APIConfig) :
    (mergeSpecFilesPart d s).operationBase = d.operationBase := by
  unfold mergeSpecFilesPart; split <;> rfl

theorem opBase_mergeProfilesPart (d s : APIConfig) :
    (mergeProfilesPart d s).operationBase = d.operationBase := by
  unfold mergeProfilesPart; split <;> rfl

theorem opBase_mergeTLSPart (d s : APIConfig) :
    (mergeTLSPart d s).operationBase = d.operationBase := by
  unfold mergeTLSPart; cases s.tls <;> rfl

theorem opBase_deepMerge (d s : APIConfig) :
    (deepMergeAPIConfig d s).operationBase
      = if s.operationBase ≠ "" then s.operationBase else d.operationBase := by
  unfold deepMergeAPIConfig
  rw [opBase_mergeTLSPart, opBase_mergeProfilesPart, opBase_mergeSpecFilesPart,
    opBase_mergeOpBasePart, opBase_mergeBasePart]

theorem specFiles_mergeBasePart (d s : APIConfig) :
    (mergeBasePart d s).specFiles = d.specFiles := by
  unfold mergeBasePart; split <;> rfl

theorem specFiles_mergeOpBasePart (d s : APIConfig) :
    (mergeOpBasePart d s).specFiles = d.specFiles := by
  unfold mergeOpBasePart; split <;> rfl

theorem specFiles_mergeProfilesPart (d s : APIConfig) :
    (mergeProfilesPart d s).specFiles = d.specFiles := by
  unfold mergeProfilesPart; split <;> rfl

theorem specFiles_mergeTLSPart (d s : APIConfig) :
    (mergeTLSPart d s).specFiles = d.specFiles := by
  unfold mergeTLSPart; cases s.tls <;> rfl

theorem specFiles_deepMerge (d s : APIConfig) :
    (deepMergeAPIConfig d s).specFiles
      = d.specFiles ++ s.specFiles.filter (fun x => !(d.specFiles.contains x)) := by
  unfold deepMergeAPIConfig
  rw [specFiles_mergeTLSPart, specFiles_mergeProfilesPart]
  unfold mergeSpecFilesPart
  rw [specFiles_mergeOpBasePart, specFiles_mergeBasePart]
  by_cases he : s.specFiles.isEmpty
  · have h0 : s.specFiles = [] := isEmpty_eq_nil _ he
    simp [he, h0, specFiles_mergeOpBasePart, specFiles_mergeBasePart]
  · simp [he, specAppend_foldl, specFiles_mergeOpBasePart, specFiles_mergeBasePart]

theorem profiles_mergeBasePart (d s : APIConfig) :
    (mergeBasePart d s).profiles = d.profiles := by
  unfold mergeBasePart; split <;> rfl

theorem profiles_mergeOpBasePart (d s : APIConfig) :
    (mergeOpBasePart d s).profiles = d.profiles := by
  unfold mergeOpBasePart; split <;> rfl

theorem profiles_mergeSpecFilesPart (d s : APIConfig) :
    (mergeSpecFilesPart d s).profiles = d.profiles := by
  unfold mergeSpecFilesPart; split <;> rfl

theorem profiles_mergeTLSPart (d s : APIConfig) :
    (mergeTLSPart d s).profiles = d.profiles := by
  unfold mergeTLSPart; cases s.tls <;> rfl

theorem profiles_deepMerge (d s : APIConfig) :
    (deepMergeAPIConfig d s).profiles = s.profiles.foldl mergeProfileStep d.profiles := by
  unfold deepMergeAPIConfig
  rw [profiles_mergeTLSPart]
  unfold mergeProfilesPart
  by_cases he : s.profiles.isEmpty
  · have h0 : s.profiles = [] := isEmpty_eq_nil _ he
    simp [he, h0, profiles_mergeSpecFilesPart, profiles_mergeOpBasePart, profiles_mergeBasePart]
  · simp [he, profiles_mergeSpecFilesPart, profiles_mergeOpBasePart, profiles_mergeBasePart]

theorem mergeTLSPart_some (d : APIConfig) (s : APIConfig) (st : TLSConfig)
    (h : s.tls = some st) :
    (mergeTLSPart d s).tls = some (mergedTLS (d.tls.getD emptyTLS) st) := by
  unfold mergeTLSPart mergedTLS
  rw [h]
  cases hp : st.pkcs11 with
  | none =>
    by_cases h1 : st.insecureSkipVerify <;> by_cases h2 : st.cert ≠ "" <;>
      by_cases h3 : st.key ≠ "" <;> by_cases h4 : st.caCert ≠ "" <;>
      simp [h1, h2, h3, h4, hp]
  | some sp =>
    by_cases h1 : st.insecureSkipVerify <;> by_cases h2 : st.cert ≠ "" <;>
      by_cases h3 : st.key ≠ "" <;> by_cases h4 : st.caCert ≠ "" <;>
      by_cases h5 : sp.path ≠ "" <;> by_cases h6 : sp.label ≠ "" <;>
      simp [h1, h2, h3, h4, h5, h6, hp]

theorem headers_profBasePart (d s : APIProfile) : (profBasePart d s).headers = d.headers := by
  unfold profBasePart; split <;> rfl

theorem headers_profQueryPart (d s : APIProfile) : (profQueryPart d s).headers = d.headers := by
  unfold profQueryPart; split <;> rfl

theorem headers_profAuthPart (d s : APIProfile) : (profAuthPart d s).headers = d.headers := by
  unfold profAuthPart; cases s.auth <;> rfl

theorem headers_profHeadersPart (d s : APIProfile) :
    (profHeadersPart d s).headers
      = if s.headers.isEmpty then d.headers else mergeStrMap d.headers s.headers := by
  unfold profHeadersPart; split <;> simp_all

theorem headers_deepMergeProfile (d s : APIProfile) :
    (deepMergeProfile d s).headers
      = if s.headers.isEmpty then d.headers else mergeStrMap d.headers s.headers := by
  unfold deepMergeProfile
  rw [headers_profAuthPart, headers_profQueryPart, headers_profHeadersPart, headers_profBasePart]

theorem query_profBasePart (d s : APIProfile) : (profBasePart d s).query = d.query := by
  unfold profBasePart; split <;> rfl

theorem query_profHeadersPart (d s : APIProfile) : (profHeadersPart d s).query = d.query := by
  unfold profHeadersPart; split <;> rfl

theorem query_profAuthPart (d s : APIProfile) : (profAuthPart d s).query = d.query := by
  unfold profAuthPart; cases s.auth <;> rfl

theorem query_profQueryPart (d s : APIProfile) :
    (profQueryPart d s).query
      = if s.query.isEmpty then d.query else mergeStrMap d.query s.query := by
  unfold profQueryPart; split <;> simp_all

theorem query_deepMergeProfile (d s : APIProfile) :
    (deepMergeProfile d s).query
      = if s.query.isEmpty then d.query else mergeStrMap d.query s.query := by
  unfold deepMergeProfile
  rw [query_profAuthPart, query_profQueryPart, query_profHeadersPart, query_profBasePart]

theorem auth_profBasePart (d s : APIProfile) : (profBasePart d s).auth = d.auth := by
  unfold profBasePart; split <;> rfl

theorem auth_profHeadersPart (d s : APIProfile) : (profHeadersPart d s).auth = d.auth := by
  unfold profHeadersPart; split <;> rfl

theorem auth_profQueryPart (d s : APIProfile) : (profQueryPart d s).auth = d.auth := by
  unfold profQueryPart; split <;> rfl

theorem auth_deepMergeProfile (d s : APIProfile) :
    (deepMergeProfile d s).auth
      = match s.auth with
        | none => d.auth
        | some sa =>
          some { name := sa.name, params := mergeStrMap ((d.auth.getD ⟨"", []⟩).params) sa.params } := by
  unfold deepMergeProfile profAuthPart
  cases s.auth with
  | none => simp [auth_profQueryPart, auth_profHeadersPart, auth_profBasePart]
  | some sa => simp [auth_profQueryPart, auth_profHeadersPart, auth_profBasePart]

theorem deepMergeProfile_headers_lookup (dp sp : APIProfile)
    (h : noDupKeys sp.headers = true) (k : String) :
    assocLookup (deepMergeProfile dp sp).headers k
      = orElseO (assocLookup sp.headers k) (assocLookup dp.headers k) := by
  rw [headers_deepMergeProfile]
  by_cases he : sp.headers.isEmpty
  · have h0 : sp.headers = [] := isEmpty_eq_nil _ he
    simp [he, h0, assocLookup, orElseO]
  · simp [he, mergeStrMap_lookup dp.headers sp.headers h k]

theorem deepMergeProfile_query_lookup (dp sp : APIProfile)
    (h : noDupKeys sp.query = true) (k : String) :
    assocLookup (deepMergeProfile dp sp).query k
      = orElseO (assocLookup sp.query k) (assocLookup dp.query k) := by
  rw [query_deepMergeProfile]
  by_cases he : sp.query.isEmpty
  · have h0 : sp.query = [] := isEmpty_eq_nil _ he
    simp [he, h0, assocLookup, orElseO]
  · simp [he, mergeStrMap_lookup dp.query sp.query h k]

theorem deepMergeProfile_authParams_lookup (dp sp : APIProfile)
    (h : (match sp.auth with
          | some a => noDupKeys a.params
          | none => true) = true) (k : String) :
    authParams (deepMergeProfile dp sp) k
      = match sp.auth with
        | some _ => orElseO (authParams sp k) (authParams dp k)
        | none => authParams dp k := by
  have ha := auth_deepMergeProfile dp sp
  cases hsa : sp.auth with
  | none =>
    rw [hsa] at ha
    simp only [hsa]
    simp [authParams, ha]
  | some sa =>
    rw [hsa] at ha h
    simp only [authParams, ha, hsa]
    rw [mergeStrMap_lookup _ _ h k]
    cases dp.auth <;> simp [assocLookup, orElseO]

theorem profLookup_profSet_self (ps : List (String × Option APIProfile)) (k : String)
    (p : APIProfile) : profLookup (profSet ps k p) k = some p := by
  simp [profLookup, profSet, assocLookup_assocSet_self]

theorem profLookup_profSet_ne (ps : List (String × Option APIProfile)) (k : String)
    (p : APIProfile) (k' : String) (h : k' ≠ k) :
    profLookup (profSet ps k p) k' = profLookup ps k' := by
  simp [profLookup, profSet, assocLookup_assocSet_ne _ _ _ _ h]

theorem profLookup_none_of_anyKey_false (t : List (String × Option APIProfile)) (k : String)
    (h : anyKey t k = false) : profLookup t k = none := by
  simp [profLookup, anyKey_false_lookup t k h]

/-- Per-name characterisation of the profile-merge loop of
deepMergeAPIConfig: a name with a non-nil source profile receives a deep
merge of that profile into the dest profile (created empty when missing);
every other name keeps the dest value. -/
theorem profiles_foldl_lookup (src : List (String × Option APIProfile))
    (h : noDupKeys src = true) (ps : List (String × Option APIProfile)) (k : String) :
    profLookup (src.foldl mergeProfileStep ps) k
      = match profLookup src k with
        | some sp => some (deepMergeProfile ((profLookup ps k).getD emptyProfile) sp)
        | none => profLookup ps k := by
  induction src generalizing ps with
  | nil => simp [profLookup, assocLookup]
  | cons kv t ih =>
    obtain ⟨k0, v0⟩ := kv
    obtain ⟨h1, h2⟩ := noDupKeys_cons k0 v0 t h
    rw [List.foldl_cons, ih h2]
    cases v0 with
    | none =>
      by_cases hk : k = k0
      · subst hk
        rw [profLookup_none_of_anyKey_false t k h1]
        simp [mergeProfileStep, profLookup, assocLookup]
      · simp [mergeProfileStep, profLookup, assocLookup, hk]
    | some sp =>
      by_cases hk : k = k0
      · subst hk
        rw [profLookup_none_of_anyKey_false t k h1]
        simp [mergeProfileStep, profSet, assocLookup_assocSet_self, profLookup, assocLookup]
      · simp only [mergeProfileStep]
        rw [profLookup_profSet_ne _ _ _ _ hk]
        simp [profLookup, assocLookup, hk]

theorem profLookup_all (ps : List (String × Option APIProfile)) (f : APIProfile → Bool)
    (h : ps.all (fun kv =>
      match kv.2 with
      | some p => f p
      | none => true) = true)
    (k : String) (p : APIProfile) (hl : profLookup ps k = some p) : f p = true := by
  induction ps with
  | nil => simp [profLookup, assocLookup] at hl
  | cons kv t ih =>
    obtain ⟨k0, v0⟩ := kv
    rw [List.all_cons, Bool.and_eq_true] at h
    by_cases hk : k = k0
    · subst hk
      simp [profLookup, assocLookup] at hl
      cases v0 with
      | none => simp at hl
      | some q =>
        simp at hl
        subst hl
        exact h.1
    · simp [profLookup, assocLookup, hk] at hl
      exact ih h.2 (by simp [profLookup, hl])

theorem tlsCert_deepMerge (d s : APIConfig) (h : tlsCert s ≠ "") :
    tlsCert (deepMergeAPIConfig d s) = tlsCert s := by
  unfold tlsCert at h ⊢
  cases hs : s.tls with
  | none => rw [hs] at h; simp at h
  | some st =>
    rw [hs] at h
    rw [tls_deepMergeAPIConfig, mergeTLSPart_some d s st hs]
    simp [mergedTLS, h]

theorem tlsKey_deepMerge (d s : APIConfig) (h : tlsKey s ≠ "") :
    tlsKey (deepMergeAPIConfig d s) = tlsKey s := by
  unfold tlsKey at h ⊢
  cases hs : s.tls with
  | none => rw [hs] at h; simp at h
  | some st =>
    rw [hs] at h
    rw [tls_deepMergeAPIConfig, mergeTLSPart_some d s st hs]
    simp [mergedTLS, h]

theorem tlsCACert_deepMerge (d s : APIConfig) (h : tlsCACert s ≠ "") :
    tlsCACert (deepMergeAPIConfig d s) = tlsCACert s := by
  unfold tlsCACert at h ⊢
  cases hs : s.tls with
  | none => rw [hs] at h; simp at h
  | some st =>
    rw [hs] at h
    rw [tls_deepMergeAPIConfig, mergeTLSPart_some d s st hs]
    simp [mergedTLS, h]

theorem pkcs11Path_deepMerge (d s : APIConfig) (h : pkcs11Path s ≠ "") :
    pkcs11Path (deepMergeAPIConfig d s) = pkcs11Path s := by
  unfold pkcs11Path at h ⊢
  cases hs : s.tls with
  | none => rw [hs] at h; simp at h
  | some st =>
    rw [hs] at h
    rw [tls_deepMergeAPIConfig, mergeTLSPart_some d s st hs]
    cases hp : st.pkcs11 with
    | none => simp [hp] at h
    | some sp =>
      simp [hp] at h
      simp [mergedTLS, hp, h]

theorem pkcs11Label_deepMerge (d s : APIConfig) (h : pkcs11Label s ≠ "") :
    pkcs11Label (deepMergeAPIConfig d s) = pkcs11Label s := by
  unfold pkcs11Label at h ⊢
  cases hs : s.tls with
  | none => rw [hs] at h; simp at h
  | some st =>
    rw [hs] at h
    rw [tls_deepMergeAPIConfig, mergeTLSPart_some d s st hs]
    cases hp : st.pkcs11 with
    | none => simp [hp] at h
    | some sp =>
      simp [hp] at h
      simp [mergedTLS, hp, h]

/-- C1: deep-merging a later-layer APIConfig into an earlier one: every
non-empty scalar field of the later layer (base, operation base, TLS cert,
TLS key, TLS CA, PKCS11 path, PKCS11 label) overwrites the earlier value;
the spec-file lists concatenate, skipping entries already present in the
earlier list, keeping earlier order then new entries in later order; the
header, query, profile and auth-param maps merge key-by-key with the later
layer winning per key, recursing into nested profile structures; an API
name with no earlier registry entry is inserted as-is; and in particular
merging a global entry carrying header a:1 with a local override carrying
header b:2 yields a profile holding both keys, while the local base fully
replaces the global base. -/
theorem claim_C1_deep_merge_semantics (d s : APIConfig)
    (regs : List (String × APIConfig)) (k0 : String) (c0 : APIConfig)
    (hwf : configProfilesWF s = true)
    (hreg : assocLookup regs k0 = none) :
    (s.base ≠ "" → (deepMergeAPIConfig d s).base = s.base)
    ∧ (s.operationBase ≠ "" → (deepMergeAPIConfig d s).operationBase = s.operationBase)
    ∧ (tlsCert s ≠ "" → tlsCert (deepMergeAPIConfig d s) = tlsCert s)
    ∧ (tlsKey s ≠ "" → tlsKey (deepMergeAPIConfig d s) = tlsKey s)
    ∧ (tlsCACert s ≠ "" → tlsCACert (deepMergeAPIConfig d s) = tlsCACert s)
    ∧ (pkcs11Path s ≠ "" → pkcs11Path (deepMergeAPIConfig d s) = pkcs11Path s)
    ∧ (pkcs11Label s ≠ "" → pkcs11Label (deepMergeAPIConfig d s) = pkcs11Label s)
    ∧ (deepMergeAPIConfig d s).specFiles
        = d.specFiles ++ s.specFiles.filter (fun x => !(d.specFiles.contains x))
    ∧ (∀ pname,
        profLookup (deepMergeAPIConfig d s).profiles pname
          = match profLookup s.profiles pname with
            | some sp =>
              some (deepMergeProfile ((profLookup d.profiles pname).getD emptyProfile) sp)
            | none => profLookup d.profiles pname)
    ∧ (∀ pname k,
        profHeaders (deepMergeAPIConfig d s) pname k
          = orElseO (profHeaders s pname k) (profHeaders d pname k))
    ∧ (∀ pname k,
        profQuery (deepMergeAPIConfig d s) pname k
          = orElseO (profQuery s pname k) (profQuery d pname k))
    ∧ (∀ pname k,
        profAuthParams (deepMergeAPIConfig d s) pname k
          = orElseO (profAuthParams s pname k) (profAuthParams d pname k))
    ∧ loadLocalEntry regs k0 c0 = regs ++ [(k0, c0)]
    ∧ profHeaders (deepMergeAPIConfig demoGlobalCfg demoLocalCfg) "default" "a" = some "1"
    ∧ profHeaders (deepMergeAPIConfig demoGlobalCfg demoLocalCfg) "default" "b" = some "2"
    ∧ (deepMergeAPIConfig demoGlobalCfg demoLocalCfg).base = "https://local.example.com" := by
  have hwf2 : noDupKeys s.profiles = true
      ∧ s.profiles.all (fun kv =>
          match kv.2 with
          | some p => profMapsWF p
          | none => true) = true := by
    simpa [configProfilesWF, Bool.and_eq_true] using hwf
  have hchar : ∀ pname,
      profLookup (deepMergeAPIConfig d s).profiles pname
        = match profLookup s.profiles pname with
          | some sp =>
            some (deepMergeProfile ((profLookup d.profiles pname).getD emptyProfile) sp)
          | none => profLookup d.profiles pname := by
    intro pname
    rw [profiles_deepMerge]
    exact profiles_foldl_lookup s.profiles hwf2.1 d.profiles pname
  have hmapsWF : ∀ pname sp, profLookup s.profiles pname = some sp → profMapsWF sp = true :=
    fun pname sp hl => profLookup_all s.profiles profMapsWF hwf2.2 pname sp hl
  refine ⟨fun hb => by rw [base_deepMerge]; simp [hb],
    fun hb => by rw [opBase_deepMerge]; simp [hb],
    tlsCert_deepMerge d s, tlsKey_deepMerge d s, tlsCACert_deepMerge d s,
    pkcs11Path_deepMerge d s, pkcs11Label_deepMerge d s,
    specFiles_deepMerge d s,
    hchar, ?_, ?_, ?_, ?_, by decide, by decide, by decide⟩
  · intro pname k
    unfold profHeaders
    cases hsp : profLookup s.profiles pname with
    | none =>
      rw [hchar pname, hsp]
      simp [orElseO]
    | some sp =>
      have hh : noDupKeys sp.headers = true := by
        have := hmapsWF pname sp hsp
        simp [profMapsWF, Bool.and_eq_true] at this
        exact this.1.1
      rw [hchar pname, hsp]
      cases hd : profLookup d.profiles pname <;>
        simp [deepMergeProfile_headers_lookup _ _ hh k, emptyProfile, assocLookup, orElseO]
  · intro pname k
    unfold profQuery
    cases hsp : profLookup s.profiles pname with
    | none =>
      rw [hchar pname, hsp]
      simp [orElseO]
    | some sp =>
      have hh : noDupKeys sp.query = true := by
        have := hmapsWF pname sp hsp
        simp [profMapsWF, Bool.and_eq_true] at this
        exact this.1.2
      rw [hchar pname, hsp]
      cases hd : profLookup d.profiles pname <;>
        simp [deepMergeProfile_query_lookup _ _ hh k, emptyProfile, assocLookup, orElseO]
  · intro pname k
    unfold profAuthParams
    cases hsp : profLookup s.profiles pname with
    | none =>
      rw [hchar pname, hsp]
      simp [orElseO]
    | some sp =>
      have hh : (match sp.auth with
          | some a => noDupKeys a.params
          | none => true) = true := by
        have := hmapsWF pname sp hsp
        simp [profMapsWF, Bool.and_eq_true] at this
        exact this.2
      rw [hchar pname, hsp]
      cases hd : profLookup d.profiles pname with
      | none =>
        have ha := auth_deepMergeProfile emptyProfile sp
        cases hsa : sp.auth with
        | none =>
          rw [hsa] at ha
          simp [emptyProfile] at ha
          simp [authParams, ha, hsa, orElseO, emptyProfile]
        | some sa =>
          rw [hsa] at ha
          simp [emptyProfile] at ha
          have hnd : noDupKeys sa.params = true := by rw [hsa] at hh; exact hh
          simp [authParams, ha, hsa, orElseO, emptyProfile]
          rw [mergeStrMap_lookup _ _ hnd k]
          cases assocLookup sa.params k <;> simp [orElseO, assocLookup]
      | some dp =>
        have ha := auth_deepMergeProfile dp sp
        cases hsa : sp.auth with
        | none =>
          rw [hsa] at ha
          simp at ha
          simp [authParams, ha, hsa, orElseO]
        | some sa =>
          rw [hsa] at ha
          simp at ha
          have hnd : noDupKeys sa.params = true := by rw [hsa] at hh; exact hh
          simp [authParams, ha, hsa, orElseO]
          rw [mergeStrMap_lookup _ _ hnd k]
          cases hda : dp.auth <;> simp [hda, orElseO, assocLookup]
  · unfold loadLocalEntry
    rw [hreg]

/-- Witness for C1 at the concrete two-layer example of the spec. -/
theorem claim_C1_witness :
    configProfilesWF demoLocalCfg = true
    ∧ demoLocalCfg.base ≠ ""
    ∧ (deepMergeAPIConfig demoGlobalCfg demoLocalCfg).base = demoLocalCfg.base :=
  ⟨by decide, by decide,
    (claim_C1_deep_merge_semantics demoGlobalCfg demoLocalCfg [] "new-api" demoGlobalCfg
      (by decide) rfl).1 (by decide)⟩

theorem strLeB_total (a b : String) (h : strLeB a b = false) : strLeB b a = true := by
  unfold strLeB at h ⊢
  rcases le_total a b with hle | hle
  · rw [decide_eq_true hle] at h
    cases h
  · exact decide_eq_true hle

theorem isSortedStrB_insertStr (x : String) (l : List String)
    (h : isSortedStrB l = true) : isSortedStrB (insertStr x l) = true := by
  induction l with
  | nil => rfl
  | cons a t ih =>
    cases hxa : strLeB x a with
    | true =>
      have e1 : insertStr x (a :: t) = x :: a :: t := by simp [insertStr, hxa]
      rw [e1]
      simp only [isSortedStrB, Bool.and_eq_true]
      exact ⟨hxa, h⟩
    | false =>
      have hax : strLeB a x = true := strLeB_total x a hxa
      have e1 : insertStr x (a :: t) = a :: insertStr x t := by simp [insertStr, hxa]
      rw [e1]
      cases t with
      | nil =>
        simp [insertStr, isSortedStrB, hax]
      | cons b t2 =>
        have hab : strLeB a b = true ∧ isSortedStrB (b :: t2) = true := by
          simp only [isSortedStrB, Bool.and_eq_true] at h
          exact h
        have ihs := ih hab.2
        cases hxb : strLeB x b with
        | true =>
          have e2 : insertStr x (b :: t2) = x :: b :: t2 := by simp [insertStr, hxb]
          rw [e2]
          simp only [isSortedStrB, Bool.and_eq_true]
          exact ⟨hax, hxb, hab.2⟩
        | false =>
          have e2 : insertStr x (b :: t2) = b :: insertStr x t2 := by simp [insertStr, hxb]
          rw [e2]
          rw [e2] at ihs
          simp only [isSortedStrB, Bool.and_eq_true]
          exact ⟨hab.1, by simpa [isSortedStrB] using ihs⟩

theorem isSortedStrB_sortStrings (l : List String) :
    isSortedStrB (sortStrings l) = true := by
  induction l with
  | nil => rfl
  | cons a t ih => simpa [sortStrings] using isSortedStrB_insertStr a (sortStrings t) ih

theorem countStr_insertStr (x : String) (l : List String) (y : String) :
    countStr (insertStr x l) y = countStr (x :: l) y := by
  induction l with
  | nil => rfl
  | cons a t ih =>
    cases hxa : strLeB x a with
    | true => simp [insertStr, hxa]
    | false =>
      have e1 : insertStr x (a :: t) = a :: insertStr x t := by simp [insertStr, hxa]
      rw [e1]
      simp only [countStr, ih]
      ring

theorem countStr_sortStrings (l : List String) (y : String) :
    countStr (sortStrings l) y = countStr l y := by
  induction l with
  | nil => rfl
  | cons a t ih =>
    rw [sortStrings, countStr_insertStr, countStr, countStr, ih]

theorem length_insertStr (x : String) (l : List String) :
    (insertStr x l).length = l.length + 1 := by
  induction l with
  | nil => rfl
  | cons a t ih =>
    cases hxa : strLeB x a with
    | true => simp [insertStr, hxa]
    | false => simp [insertStr, hxa, ih]

theorem length_sortStrings (l : List String) : (sortStrings l).length = l.length := by
  induction l with
  | nil => rfl
  | cons a t ih => simp [sortStrings, length_insertStr, ih]

/-- C7: profile validation succeeds exactly when the requested name maps to
a declared profile or is the implicit default; otherwise it produces an
error message that enumerates the available profile names sorted ascending
(a sorted permutation of the profile-map keys), or a no-profiles message
when the map is empty; requesting staging against an API declaring only
prod yields an error whose text contains prod. -/
theorem claim_C7_profile_validation (pn : String)
    (profiles : List (String × Option APIProfile)) (cn : String) :
    (validateProfile pn profiles cn = none ↔ ((profLookup profiles pn).isSome ∨ pn = "default"))
    ∧ isSortedStrB (sortStrings (profiles.map Prod.fst)) = true
    ∧ (∀ x, countStr (sortStrings (profiles.map Prod.fst)) x
          = countStr (profiles.map Prod.fst) x)
    ∧ validateProfile pn profiles cn
        = (if (profLookup profiles pn).isSome ∨ pn = "default" then none
           else if profiles.length = 0 then some (noProfilesMsg pn cn)
           else some (availableMsg pn cn (sortStrings (profiles.map Prod.fst))))
    ∧ strContains ((validateProfile "staging" demoProdProfiles "my-api").getD "") "prod"
        = true := by
  have hlen : (sortStrings (profiles.map Prod.fst)).length = profiles.length := by
    rw [length_sortStrings, List.length_map]
  have heq : validateProfile pn profiles cn
      = (if (profLookup profiles pn).isSome ∨ pn = "default" then none
         else if profiles.length = 0 then some (noProfilesMsg pn cn)
         else some (availableMsg pn cn (sortStrings (profiles.map Prod.fst)))) := by
    unfold validateProfile
    by_cases h1 : pn = "default" <;> cases h2 : profLookup profiles pn <;>
      simp [h1, h2, hlen]
  refine ⟨?_, isSortedStrB_sortStrings _, fun x => countStr_sortStrings _ x, heq, by decide⟩
  rw [heq]
  by_cases h1 : pn = "default" <;> cases h2 : profLookup profiles pn <;>
    cases profiles <;> simp [h1, h2]

theorem foldl_baseSeenStep_error (cfgs : List (String × APIConfig)) (e : String) :
    cfgs.foldl baseSeenStep (.error e) = .error e := by
  induction cfgs with
  | nil => rfl
  | cons kv t ih => simpa [baseSeenStep] using ih

theorem foldl_baseSeenStep (cfgs : List (String × APIConfig)) (seen : List String) :
    isErr (cfgs.foldl baseSeenStep (Except.ok seen))
      = !(noDupFrom seen (cfgs.map (fun kv => kv.2.base))) := by
  induction cfgs generalizing seen with
  | nil => simp [isErr, noDupFrom]
  | cons kv t ih =>
    rw [List.foldl_cons]
    by_cases hc : kv.2.base ∈ seen
    · simp [baseSeenStep, hc, foldl_baseSeenStep_error, isErr, noDupFrom]
    · simp [baseSeenStep, hc, ih, noDupFrom]

theorem countStr_pos_of_mem (m : List String) (b : String) (hb : b ∈ m) :
    1 ≤ countStr m b := by
  induction m with
  | nil => cases hb
  | cons a t ih =>
    rcases List.mem_cons.mp hb with h | h
    · subst h
      simp [countStr]
    · have := ih h
      simp only [countStr]
      omega

theorem countStr_two_of_two_mem (l : List (String × APIConfig))
    (p q : String × APIConfig) (hp : p ∈ l) (hq : q ∈ l) (hne : p ≠ q)
    (hb : p.2.base = q.2.base) :
    2 ≤ countStr (l.map (fun kv => kv.2.base)) p.2.base := by
  induction l with
  | nil => cases hp
  | cons x t ih =>
    rcases List.mem_cons.mp hp with h1 | h1
    · subst h1
      rcases List.mem_cons.mp hq with h2 | h2
      · exact absurd h2.symm hne
      · have hcq : 1 ≤ countStr (t.map fun kv => kv.2.base) p.2.base := by
          rw [hb]
          exact countStr_pos_of_mem _ _ (List.mem_map_of_mem _ h2)
        have e : countStr ((p :: t).map fun kv => kv.2.base) p.2.base
            = 1 + countStr (t.map fun kv => kv.2.base) p.2.base := by
          simp [countStr]
        rw [e]
        omega
    · rcases List.mem_cons.mp hq with h2 | h2
      · subst h2
        have hcp : 1 ≤ countStr (t.map fun kv => kv.2.base) p.2.base :=
          countStr_pos_of_mem _ _ (List.mem_map_of_mem _ h1)
        have e : countStr ((q :: t).map fun kv => kv.2.base) p.2.base
            = 1 + countStr (t.map fun kv => kv.2.base) p.2.base := by
          simp [countStr, hb]
        rw [e]
        omega
      · have hcc := ih h1 h2
        simp only [List.map_cons, countStr]
        omega

theorem noDupFrom_false_of_seen (seen : List String) (l : List String) (b : String)
    (hbl : b ∈ l) (hbs : b ∈ seen) : noDupFrom seen l = false := by
  induction l generalizing seen with
  | nil => cases hbl
  | cons x t ih =>
    by_cases hc : x ∈ seen
    · simp [noDupFrom, hc]
    · rcases List.mem_cons.mp hbl with h | h
      · subst h
        exact absurd hbs hc
      · have hbs2 : b ∈ seen ++ [x] := List.mem_append.mpr (Or.inl hbs)
        simp [noDupFrom, hc, ih (seen ++ [x]) h hbs2]

theorem mem_of_countStr_pos (l : List String) (b : String) (h : 1 ≤ countStr l b) :
    b ∈ l := by
  induction l with
  | nil => simp [countStr] at h
  | cons a t ih =>
    by_cases hab : a = b
    · subst hab
      exact List.mem_cons_self a t
    · simp [countStr, hab] at h
      exact List.mem_cons_of_mem _ (ih h)

theorem noDupFrom_false_of_count (seen : List String) (l : List String) (b : String)
    (h : 2 ≤ countStr l b) : noDupFrom seen l = false := by
  induction l generalizing seen with
  | nil => simp [countStr] at h
  | cons x t ih =>
    by_cases hc : x ∈ seen
    · simp [noDupFrom, hc]
    · by_cases hx : x = b
      · subst hx
        have hh2 := h
        simp [countStr] at hh2
        have hbt : 1 ≤ countStr t x := by omega
        have hmem : x ∈ t := mem_of_countStr_pos t x hbt
        have hxin : x ∈ seen ++ [x] := List.mem_append.mpr (Or.inr (by simp))
        simp [noDupFrom, hc, noDupFrom_false_of_seen (seen ++ [x]) t x hmem hxin]
      · have h2 : 2 ≤ countStr t b := by
          simp [countStr, hx] at h
          exact h
        simp [noDupFrom, hc, ih (seen ++ [x]) h2]

/-- C9: no two registered APIs may share an identical base URI: whenever
two distinct API names of the startup registry carry equal Base values,
the duplicate-base startup check fails (the Go code panics there) instead
of producing a usable registry. -/
theorem claim_C9_duplicate_base_fatal (cfgs : List (String × APIConfig))
    (n1 n2 : String) (c1 c2 : APIConfig)
    (h1 : (n1, c1) ∈ cfgs) (h2 : (n2, c2) ∈ cfgs) (hne : n1 ≠ n2)
    (hb : c1.base = c2.base) :
    isErr (checkDuplicateBases cfgs) = true := by
  have hpair : (n1, c1) ≠ (n2, c2) := by
    intro hc
    exact hne (congrArg Prod.fst hc)
  have hcount := countStr_two_of_two_mem cfgs (n1, c1) (n2, c2) h1 h2 hpair hb
  rw [checkDuplicateBases, foldl_baseSeenStep]
  simp [noDupFrom_false_of_count [] _ _ hcount]

/-- Witness for C9: two APIs named x and y sharing one base make the
startup check fail. -/
theorem claim_C9_witness :
    ("x", demoDupA) ∈ [("x", demoDupA), ("y", demoDupB)]
    ∧ ("y", demoDupB) ∈ [("x", demoDupA), ("y", demoDupB)]
    ∧ ("x" : String) ≠ "y"
    ∧ demoDupA.base = demoDupB.base
    ∧ isErr (checkDuplicateBases [("x", demoDupA), ("y", demoDupB)]) = true :=
  ⟨by decide, by decide, by decide, by decide,
    claim_C9_duplicate_base_fatal [("x", demoDupA), ("y", demoDupB)] "x" "y" demoDupA demoDupB
      (by decide) (by decide) (by decide) (by decide)⟩

/-- C2 counterexample: with the active profile default and an API whose
declared default profile carries base /p while the API base is /b, a
lookup of /p/x finds nothing — the code matches the API base only — while
the claim rule (profile base when the profile defines one) would return
the API. -/
theorem claim_C2_counterexample :
    findAPI "" "default" [("api1", demoC2Cfg)] "/p/x" = none
    ∧ (findAPIClaim "" "default" [("api1", demoC2Cfg)] "/p/x").isSome = true := by
  constructor
  · decide
  · decide

/-- C2 amended: findAPI returns the first registry entry, in iteration
order and restricted by a non-empty api-name filter, whose effective
matching base is a string prefix of the URI, where a non-default active
profile must exist on the candidate (else it is skipped) and contributes
its base only when non-empty, and the default profile always matches
against the API base; no longest-prefix disambiguation happens, and with
bases /a and /a/b a lookup of /a/b/x returns some API. -/
theorem claim_C2_amended_lookup :
    (∀ (apiName rshProfile uri : String) (cfgs : List (String × APIConfig)),
      findAPI apiName rshProfile cfgs uri = findAPIAmended apiName rshProfile cfgs uri)
    ∧ (findAPI "" "default" demoPrefixRegistry "/a/b/x").isSome = true := by
  constructor
  · intro apiName rshProfile uri cfgs
    induction cfgs with
    | nil => rfl
    | cons nc rest ih =>
      obtain ⟨name, config⟩ := nc
      by_cases hn : 0 < apiName.length ∧ name ≠ apiName
      · simp [findAPI, findAPIAmended, hn, ih]
      · by_cases hp : rshProfile = "default"
        · subst hp
          by_cases hm : strStartsWith uri config.base = true
          · simp [findAPI, findAPIAmended, effectiveCandidate, hn, hm]
          · simp [findAPI, findAPIAmended, effectiveCandidate, hn, hm, ih]
        · cases hprof : profLookup config.profiles rshProfile with
          | none =>
            simp [findAPI, findAPIAmended, effectiveCandidate, hn, hp, hprof, ih]
          | some prof =>
            by_cases hb : prof.base = ""
            · by_cases hm : strStartsWith uri config.base = true
              · simp [findAPI, findAPIAmended, effectiveCandidate, hn, hp, hprof, hb, hm]
              · simp [findAPI, findAPIAmended, effectiveCandidate, hn, hp, hprof, hb, hm, ih]
            · by_cases hm : strStartsWith uri prof.base = true
              · simp [findAPI, findAPIAmended, effectiveCandidate, hn, hp, hprof, hb, hm]
              · simp [findAPI, findAPIAmended, effectiveCandidate, hn, hp, hprof, hb, hm, ih]
  · decide

theorem checkDir_length_le (files : List String) (d : List String) :
    (checkDir files d).length ≤ 1 := by
  unfold checkDir
  by_cases h1 : joinPath d ".restish.json" ∈ files <;>
    by_cases h2 : joinPath d ".restish.yaml" ∈ files <;>
    simp [h1, h2]

theorem checkDir_reverse (files : List String) (d : List String) :
    (checkDir files d).reverse = checkDir files d := by
  unfold checkDir
  by_cases h1 : joinPath d ".restish.json" ∈ files <;>
    by_cases h2 : joinPath d ".restish.yaml" ∈ files <;>
    simp [h1, h2]

theorem walkUp_eq_chain (files : List String) (d : List String) :
    walkUp files d = ((dirChain d).map (checkDir files)).flatten := by
  induction d with
  | nil => simp [walkUp, dirChain]
  | cons x t ih => simp [walkUp, dirChain, ih]

/-- C8 counterexample: an override path naming a nonexistent file does not
replace tree-walking — the code falls back to the walk — while the claim
says the override is returned unconditionally. -/
theorem claim_C8_counterexample :
    findAllLocalConfigs "/nope" ["/a/.restish.json"] ["a"] = ["/a/.restish.json"]
    ∧ claimFindAllLocalConfigs "/nope" ["/a/.restish.json"] ["a"] = ["/nope"] := by
  constructor
  · decide
  · decide

/-- C8 amended: discovery probes each directory from the working directory
to the root for the two fixed names, json preferred and at most one match
per directory, and returns the matches ordered root-first; a supplied
override path replaces tree-walking only when that file exists, and a
nonexistent override is ignored. -/
theorem claim_C8_local_config_discovery (rshConfig : String) (files : List String)
    (cwd : List String) :
    findAllLocalConfigs rshConfig files cwd
      = (if rshConfig ≠ "" ∧ files.contains rshConfig then [rshConfig]
         else ((dirChain cwd).reverse.map (checkDir files)).flatten)
    ∧ (∀ d, (checkDir files d).length ≤ 1) := by
  refine ⟨?_, fun d => checkDir_length_le files d⟩
  have hrev : (walkUp files cwd).reverse
      = ((dirChain cwd).reverse.map (checkDir files)).flatten := by
    rw [walkUp_eq_chain, List.reverse_flatten]
    congr 1
    rw [← List.map_reverse]
    have : ∀ L : List (List String),
        (L.map (checkDir files)).map List.reverse = L.map (checkDir files) := by
      intro L
      rw [List.map_map]
      apply List.map_congr_left
      intro a _
      exact checkDir_reverse files a
    rw [← List.map_reverse, this]
  by_cases h1 : rshConfig = ""
  · simp [findAllLocalConfigs, h1, hrev]
  · by_cases h2 : rshConfig ∈ files
    · simp [findAllLocalConfigs, h1, h2]
    · simp [findAllLocalConfigs, h1, h2, hrev]

/-- C3 counterexample: a relative server URL /v1 is returned directly as
the base path by the code, while the claim rule — match expanded URLs on
scheme+host equality, else fall back to the configured base path — would
answer /x for a base of http://example.com/x. -/
theorem claim_C3_counterexample :
    getBasePath ⟨"http", "example.com", "/x"⟩ [⟨"/v1", []⟩] = "/v1"
    ∧ getBasePathClaim ⟨"http", "example.com", "/x"⟩ [⟨"/v1", []⟩] = "/x"
    ∧ ("/v1" : String) ≠ "/x" := by
  refine ⟨by decide, by decide, by decide⟩

/-- C3 amended: servers are consulted in declaration order; a server URL
beginning with a slash is returned immediately as the base path; otherwise
the server URL variables are expanded (defaults substituted when no
enumeration is declared, enumerated variables fanned out into the
cross-product) and the first expanded URL having scheme://host of the
configured base as a string prefix contributes its parsed path with any
trailing slash trimmed; if no server yields a result, the configured base
URL path is returned. -/
theorem claim_C3_base_path (location : GoURL) (servers : List OAServer) :
    getBasePath location servers = getBasePathAmended location servers := by
  induction servers with
  | nil => rfl
  | cons s rest ih =>
    by_cases hrel : strStartsWith s.url "/" = true
    · simp [getBasePath, getBasePathAmended, serverResult, orElseO, hrel]
    · cases hf : (expandEndpoints s.url s.vars).find?
          (fun e => strStartsWith e (location.scheme ++ "://" ++ location.host)) with
      | some e =>
        simp [getBasePath, getBasePathAmended, serverResult, orElseO, hrel, hf]
      | none =>
        simp [getBasePath, getBasePathAmended, serverResult, orElseO, hrel, hf, ih]

theorem combineFold1 (ps : List OAParameter) (l0 : List OAParameter) (n0 : List String) :
    ps.foldl (fun acc p => (acc.1 ++ [p], acc.2 ++ [p.name])) (l0, n0)
      = (l0 ++ ps, n0 ++ ps.map (fun p => p.name)) := by
  induction ps generalizing l0 n0 with
  | nil => simp
  | cons p t ih => simp [ih]

theorem combineFold2 (names : List String) (src acc : List OAParameter) :
    src.foldl (fun a p => if names.contains p.name then a else a ++ [p]) acc
      = acc ++ src.filter (fun p => !(names.contains p.name)) := by
  induction src generalizing acc with
  | nil => simp
  | cons p t ih =>
    rw [List.foldl_cons, ih]
    by_cases hx : p.name ∈ names
    · simp [List.filter_cons, hx]
    · simp [List.filter_cons, hx]

/-- C5 counterexample: a parameter whose schema declares default 10 and no
example compiles with an absent example — the schema default does not
flow into the example — while the claim precedence (parameter example over
schema example over schema default) would give example 10. -/
theorem claim_C5_counterexample :
    (openapiParam demoC5Param).exampleVal = none
    ∧ claimParamExample demoC5Param = some (.yInt 10) := by
  refine ⟨rfl, rfl⟩

/-- C5 amended: the merged parameter list keeps every operation-level
parameter and includes a path-level parameter exactly when no
operation-level one shares its name; each compiled Param takes its type
from the schema with one level of array-item typing, form style only when
declared form, the explode flag as declared (false when absent), its
default from the schema default, and its example by precedence parameter
example over schema example, with no fallback to the schema default. -/
theorem claim_C5_parameter_compilation :
    (∀ opParams pathParams : List OAParameter,
      combineParams opParams pathParams
        = opParams ++ pathParams.filter
            (fun p => !((opParams.map (fun q => q.name)).contains p.name)))
    ∧ (∀ p : OAParameter,
        (openapiParam p).type = paramTypeSpec p
        ∧ (openapiParam p).style
            = (if p.style = "form" then ParamStyle.form else ParamStyle.simple)
        ∧ (openapiParam p).explode = p.explode.getD false
        ∧ (openapiParam p).dflt = p.schema.bind (fun s => s.dflt)
        ∧ (openapiParam p).exampleVal
            = orElseO p.exampleVal (p.schema.bind (fun s => s.exampleVal))) := by
  constructor
  · intro opParams pathParams
    unfold combineParams
    rw [combineFold1, combineFold2]
    simp
  · intro p
    refine ⟨?_, rfl, rfl, ?_, ?_⟩
    · unfold openapiParam paramTypeSpec
      cases hs : p.schema with
      | none => rfl
      | some s =>
        cases ht : s.type with
        | nil => simp [ht]
        | cons t ts =>
          by_cases hta : t = "array"
          · subst hta
            cases hi : s.items with
            | none => simp [ht, hi]
            | some its => cases its <;> simp [ht, hi]
          · simp [ht, hta]
    · unfold openapiParam
      cases p.schema <;> rfl
    · unfold openapiParam
      cases p.schema <;> cases p.exampleVal <;> rfl

/-- C6 counterexample: with operation id getWidget and an explicit name
override my-op, the legacy slug getwidget is non-empty and differs from
the chosen name, yet the code adds no alias — the legacy-alias branch only
runs when no override is present. -/
theorem claim_C6_counterexample :
    (operationNameAliases demoC6Op "GET" "/widgets/{id}").1 = "my-op"
    ∧ slugMake "getWidget" = "getwidget"
    ∧ ("getwidget" : String) ≠ "my-op"
    ∧ ¬("getwidget" ∈ (operationNameAliases demoC6Op "GET" "/widgets/{id}").2) := by
  refine ⟨by decide, by decide, by decide, by decide⟩

/-- C6 amended: the operation name is the non-empty name-override
extension, else the dash-cased operation id, else a dash-cased
method-path slug; only when no override is present is a non-empty legacy
slug of the operation id that differs from the chosen name appended as an
extra alias; getWidget dash-cases to get-widget, and GET on
/widgets/{id} with no id compiles to get-widgets-id. -/
theorem claim_C6_operation_naming :
    (∀ (op : OpNaming) (method uriPath : String),
      (operationNameAliases op method uriPath).1
        = (if op.extName ≠ "" then op.extName
           else if kebab op.operationId ≠ "" then kebab op.operationId
           else kebab (method ++ "-" ++ trimSlashes uriPath))
      ∧ (operationNameAliases op method uriPath).2
        = op.extAliases ++
            (if op.extName = "" ∧ slugMake op.operationId ≠ ""
                ∧ slugMake op.operationId
                    ≠ (if kebab op.operationId ≠ "" then kebab op.operationId
                       else kebab (method ++ "-" ++ trimSlashes uriPath))
             then [slugMake op.operationId] else []))
    ∧ kebab "getWidget" = "get-widget"
    ∧ (operationNameAliases ⟨"", "", []⟩ "GET" "/widgets/{id}").1 = "get-widgets-id" := by
  refine ⟨?_, by decide, by decide⟩
  intro op method uriPath
  unfold operationNameAliases
  by_cases h1 : op.extName = ""
  · by_cases h2 : kebab op.operationId = ""
    · by_cases h3 : slugMake op.operationId = ""
      · simp [h1, h2, h3]
      · by_cases h4 : slugMake op.operationId = kebab (method ++ "-" ++ trimSlashes uriPath)
        · simp [h1, h2, h3, h4]
        · simp [h1, h2, h3, h4]
    · by_cases h3 : slugMake op.operationId = ""
      · simp [h1, h2, h3]
      · by_cases h4 : slugMake op.operationId = kebab op.operationId
        · simp [h1, h2, h3, h4]
        · simp [h1, h2, h3, h4]
  · simp [h1]

theorem nodup_snoc {α : Type u} (l : List α) (x : α) (h1 : l.Nodup) (h2 : ¬ x ∈ l) :
    (l ++ [x]).Nodup := by
  induction l with
  | nil => simp
  | cons a t ih =>
    simp only [List.nodup_cons] at h1
    have h2' : ¬ x ∈ t := fun hh => h2 (List.mem_cons_of_mem a hh)
    have hxa : a ≠ x := fun hh => h2 (by simp [hh])
    simp only [List.cons_append, List.nodup_cons]
    refine ⟨?_, ih h1.2 h2'⟩
    intro hmem
    rcases List.mem_append.mp hmem with hh | hh
    · exact h1.1 hh
    · simp at hh
      exact hxa hh

theorem addEntry_not_mem (acc : List (Nat × List SchemaEntryL)) (e : SchemaEntryL)
    (hm : ¬ e.hash ∈ acc.map Prod.fst) : addEntry acc e = acc ++ [(e.hash, [e])] := by
  induction acc with
  | nil => rfl
  | cons g t ih =>
    obtain ⟨h, l⟩ := g
    simp only [List.map_cons, List.mem_cons] at hm
    push_neg at hm
    have hne : ¬ h = e.hash := fun hh => hm.1 hh.symm
    simp [addEntry, hne, ih hm.2]

theorem addEntry_mem_nodup (acc : List (Nat × List SchemaEntryL)) (e : SchemaEntryL)
    (hnd : (acc.map Prod.fst).Nodup) (hm : e.hash ∈ acc.map Prod.fst) :
    addEntry acc e = acc.map (fun g => if g.1 = e.hash then (g.1, g.2 ++ [e]) else g) := by
  induction acc with
  | nil => simp at hm
  | cons g t ih =>
    obtain ⟨h, l⟩ := g
    simp only [List.map_cons, List.nodup_cons] at hnd
    by_cases hc : h = e.hash
    · have hrest : ∀ g2 : Nat × List SchemaEntryL, g2 ∈ t → ¬ g2.1 = e.hash := by
        intro g2 hg2 hcc
        have hmm2 : g2.1 ∈ List.map Prod.fst t := List.mem_map_of_mem Prod.fst hg2
        rw [hcc, ← hc] at hmm2
        exact hnd.1 hmm2
      have hmap : t.map (fun g2 => if g2.1 = e.hash then (g2.1, g2.2 ++ [e]) else g2) = t := by
        have h1 : t.map (fun g2 => if g2.1 = e.hash then (g2.1, g2.2 ++ [e]) else g2)
            = t.map id := List.map_congr_left (fun g2 hg2 => by simp [hrest g2 hg2])
        simpa using h1
      simp [addEntry, hc, hmap]
    · simp only [List.map_cons, List.mem_cons] at hm
      rcases hm with hm1 | hm1
      · exact absurd hm1.symm hc
      · simp [addEntry, hc, ih hnd.2 hm1]

theorem keys_map_update (acc : List (Nat × List SchemaEntryL)) (e : SchemaEntryL) :
    ((acc.map (fun g => if g.1 = e.hash then (g.1, g.2 ++ [e]) else g)).map Prod.fst)
      = acc.map Prod.fst := by
  rw [List.map_map]
  apply List.map_congr_left
  intro g _
  by_cases hc : g.1 = e.hash <;> simp [hc]

theorem mem_dedupNatAux (seen : List Nat) (l : List Nat) (h : Nat)
    (hh : h ∈ dedupNatAux seen l) : ¬ h ∈ seen := by
  induction l generalizing seen with
  | nil => simp [dedupNatAux] at hh
  | cons x t ih =>
    by_cases hc : x ∈ seen
    · rw [show dedupNatAux seen (x :: t) = dedupNatAux seen t by simp [dedupNatAux, hc]] at hh
      exact ih seen hh
    · rw [show dedupNatAux seen (x :: t) = x :: dedupNatAux (seen ++ [x]) t by
        simp [dedupNatAux, hc]] at hh
      rcases List.mem_cons.mp hh with h1 | h1
      · subst h1
        exact hc
      · intro hs
        exact ih (seen ++ [x]) h1 (List.mem_append.mpr (Or.inl hs))

theorem extendGroups_update (acc : List (Nat × List SchemaEntryL)) (e : SchemaEntryL)
    (rest : List SchemaEntryL) (hmem : e.hash ∈ acc.map Prod.fst) :
    extendGroups (acc.map (fun g => if g.1 = e.hash then (g.1, g.2 ++ [e]) else g)) rest
      = extendGroups acc (e :: rest) := by
  unfold extendGroups
  rw [keys_map_update]
  congr 1
  · rw [List.map_map]
    apply List.map_congr_left
    intro g hg
    by_cases hc : g.1 = e.hash
    · have hbe : (e.hash == g.1) = true := by simp [hc]
      simp [hc, List.filter_cons, hbe]
    · have hbe : (e.hash == g.1) = false := by
        simp only [beq_eq_false_iff_ne, ne_eq]
        exact fun hh => hc hh.symm
      simp [hc, List.filter_cons, hbe]
  · simp only [List.map_cons]
    rw [show dedupNatAux (acc.map Prod.fst) (e.hash :: rest.map (fun x => x.hash))
        = dedupNatAux (acc.map Prod.fst) (rest.map (fun x => x.hash)) by
      simp [dedupNatAux, hmem]]
    apply List.map_congr_left
    intro h hh
    have hns := mem_dedupNatAux _ _ _ hh
    have hne : (e.hash == h) = false := by
      simp only [beq_eq_false_iff_ne, ne_eq]
      intro hcc
      exact hns (hcc ▸ hmem)
    simp [List.filter_cons, hne]

theorem extendGroups_snoc (acc : List (Nat × List SchemaEntryL)) (e : SchemaEntryL)
    (rest : List SchemaEntryL) (hmem : ¬ e.hash ∈ acc.map Prod.fst) :
    extendGroups (acc ++ [(e.hash, [e])]) rest = extendGroups acc (e :: rest) := by
  unfold extendGroups
  rw [show (acc ++ [(e.hash, [e])]).map Prod.fst = acc.map Prod.fst ++ [e.hash] from by simp]
  rw [List.map_append]
  rw [show dedupNatAux (acc.map Prod.fst) ((e :: rest).map (fun e2 => e2.hash))
      = e.hash :: dedupNatAux (acc.map Prod.fst ++ [e.hash]) (rest.map (fun e2 => e2.hash)) from by
    simp [dedupNatAux, hmem]]
  rw [List.map_cons, List.append_assoc]
  congr 1
  · apply List.map_congr_left
    intro g hg
    have hgne : (e.hash == g.1) = false := by
      simp only [beq_eq_false_iff_ne, ne_eq]
      intro hcc
      exact hmem (hcc ▸ List.mem_map_of_mem Prod.fst hg)
    simp [List.filter_cons, hgne]
  · simp only [List.map_cons, List.map_nil, List.singleton_append]
    congr 1
    · have hself : (e.hash == e.hash) = true := by simp
      simp [List.filter_cons, hself]
    · apply List.map_congr_left
      intro h hh
      have hns := mem_dedupNatAux _ _ _ hh
      have hne : (e.hash == h) = false := by
        simp only [beq_eq_false_iff_ne, ne_eq]
        intro hcc
        exact hns (by
          subst hcc
          exact List.mem_append.mpr (Or.inr (by simp)))
      simp [List.filter_cons, hne]

theorem foldl_addEntry (es : List SchemaEntryL) (acc : List (Nat × List SchemaEntryL))
    (hnd : (acc.map Prod.fst).Nodup) :
    es.foldl addEntry acc = extendGroups acc es := by
  induction es generalizing acc with
  | nil =>
    unfold extendGroups
    simp [dedupNatAux]
  | cons e rest ih =>
    rw [List.foldl_cons]
    by_cases hmem : e.hash ∈ acc.map Prod.fst
    · rw [addEntry_mem_nodup acc e hnd hmem]
      have hnd2 : (((acc.map (fun g => if g.1 = e.hash then (g.1, g.2 ++ [e]) else g)).map
          Prod.fst)).Nodup := by
        rw [keys_map_update]
        exact hnd
      rw [ih _ hnd2, extendGroups_update acc e rest hmem]
    · rw [addEntry_not_mem acc e hmem]
      have hnd2 : (((acc ++ [(e.hash, [e])]).map Prod.fst)).Nodup := by
        rw [List.map_append]
        exact nodup_snoc _ _ hnd hmem
      rw [ih _ hnd2, extendGroups_snoc acc e rest hmem]

theorem groupEntries_filter (es : List SchemaEntryL) :
    groupEntries es
      = (dedupNat (es.map (fun e => e.hash))).map
          (fun h => (h, es.filter (fun e => e.hash == h))) := by
  have h := foldl_addEntry es [] (by simp)
  rw [groupEntries, h]
  unfold extendGroups dedupNat
  simp

theorem mem_insertGroup (g a : Nat × List SchemaEntryL) (l : List (Nat × List SchemaEntryL)) :
    a ∈ insertGroup g l ↔ a = g ∨ a ∈ l := by
  induction l with
  | nil => simp [insertGroup]
  | cons g2 t ih =>
    cases hle : strLeB (headCode g.2) (headCode g2.2) with
    | true => simp [insertGroup, hle]
    | false =>
      simp only [insertGroup, hle, Bool.false_eq_true, if_false, List.mem_cons, ih]
      constructor
      · intro hcc
        rcases hcc with hcc | hcc | hcc
        · exact Or.inr (Or.inl hcc)
        · exact Or.inl hcc
        · exact Or.inr (Or.inr hcc)
      · intro hcc
        rcases hcc with hcc | hcc | hcc
        · exact Or.inr (Or.inl hcc)
        · exact Or.inl hcc
        · exact Or.inr (Or.inr hcc)

theorem mem_sortGroups (a : Nat × List SchemaEntryL) (l : List (Nat × List SchemaEntryL)) :
    a ∈ sortGroups l ↔ a ∈ l := by
  induction l with
  | nil => simp [sortGroups]
  | cons g t ih =>
    simp [sortGroups, mem_insertGroup, ih]

theorem groupsSortedB_insertGroup (g : Nat × List SchemaEntryL)
    (l : List (Nat × List SchemaEntryL)) (h : groupsSortedB l = true) :
    groupsSortedB (insertGroup g l) = true := by
  induction l with
  | nil => rfl
  | cons g2 t ih =>
    cases hle : strLeB (headCode g.2) (headCode g2.2) with
    | true =>
      have e1 : insertGroup g (g2 :: t) = g :: g2 :: t := by simp [insertGroup, hle]
      rw [e1]
      simp only [groupsSortedB, Bool.and_eq_true]
      exact ⟨hle, h⟩
    | false =>
      have hge : strLeB (headCode g2.2) (headCode g.2) = true := strLeB_total _ _ hle
      have e1 : insertGroup g (g2 :: t) = g2 :: insertGroup g t := by simp [insertGroup, hle]
      rw [e1]
      cases t with
      | nil =>
        simp [insertGroup, groupsSortedB, hge]
      | cons g3 t2 =>
        have hsub : strLeB (headCode g2.2) (headCode g3.2) = true
            ∧ groupsSortedB (g3 :: t2) = true := by
          simp only [groupsSortedB, Bool.and_eq_true] at h
          exact h
        have ihs := ih hsub.2
        cases hle3 : strLeB (headCode g.2) (headCode g3.2) with
        | true =>
          have e2 : insertGroup g (g3 :: t2) = g :: g3 :: t2 := by simp [insertGroup, hle3]
          rw [e2]
          simp only [groupsSortedB, Bool.and_eq_true]
          exact ⟨hge, hle3, hsub.2⟩
        | false =>
          have e2 : insertGroup g (g3 :: t2) = g3 :: insertGroup g t2 := by
            simp [insertGroup, hle3]
          rw [e2]
          rw [e2] at ihs
          simp only [groupsSortedB, Bool.and_eq_true]
          exact ⟨hsub.1, by simpa [groupsSortedB] using ihs⟩

theorem groupsSortedB_sortGroups (l : List (Nat × List SchemaEntryL)) :
    groupsSortedB (sortGroups l) = true := by
  induction l with
  | nil => rfl
  | cons g t ih => simpa [sortGroups] using groupsSortedB_insertGroup g (sortGroups t) ih

/-- C4 counterexample: one code 200 declaring two content types with the
same schema hash produces one section listing 200 twice — one entry per
(code, content type) pair — while the claim says a section lists either
its single code or the joined set of its codes, which for the single
distinct code 200 would be the one-element list. -/
theorem claim_C4_counterexample :
    (openapiSections demoC4Responses none).map (fun sec => sec.codes) = [["200", "200"]]
    ∧ (claimSections demoC4Responses none).map (fun sec => sec.codes) = [["200"]] := by
  refine ⟨by decide, by decide⟩

/-- C4 amended: response documentation clusters the (code, content type)
entries by schema content hash — the bucket list equals, for each distinct
hash in first-appearance order, the list of all entries carrying that hash
in sorted-code order — sections are the buckets sorted by first code
ascending; a section uses the single-code form exactly when it holds one
entry, else it lists its entry codes joined in order, so a code with
several same-hash content types repeats; the zero hash marks responses
without a schema; and the representative response header names are listed
sorted. -/
theorem claim_C4_response_grouping (responses : List (String × RespInfo))
    (dflt : Option RespInfo) :
    openapiSections responses dflt
      = (sortGroups (groupEntries (buildEntries responses dflt))).map
          (mkSection (respMapOf responses dflt))
    ∧ groupEntries (buildEntries responses dflt)
        = (dedupNat ((buildEntries responses dflt).map (fun e => e.hash))).map
            (fun h => (h, (buildEntries responses dflt).filter (fun e => e.hash == h)))
    ∧ (∀ g, g ∈ sortGroups (groupEntries (buildEntries responses dflt))
          ↔ g ∈ groupEntries (buildEntries responses dflt))
    ∧ groupsSortedB (sortGroups (groupEntries (buildEntries responses dflt))) = true
    ∧ (openapiSections responses dflt).all (fun sec => isSortedStrB sec.headerNames) = true
    ∧ isSortedStrB (codesOf responses dflt) = true := by
  refine ⟨rfl, groupEntries_filter _, fun g => mem_sortGroups _ _,
    groupsSortedB_sortGroups _, ?_, isSortedStrB_sortStrings _⟩
  rw [List.all_eq_true]
  intro sec hsec
  rw [openapiSections] at hsec
  rcases List.mem_map.mp hsec with ⟨g, hg, rfl⟩
  unfold mkSection
  cases hlk : assocLookup (respMapOf responses dflt) (headCode g.2) with
  | none => simp [hlk, isSortedStrB]
  | some r =>
    by_cases he : r.headerNames.isEmpty
    · simp [hlk, he, isSortedStrB]
    · simp [hlk, he, isSortedStrB_sortStrings]

end Restish
